import Mathlib

/-!
Verification of the x-agent-manager core against its specification.

The JavaScript source is shallowly embedded: each JS function that a claim
depends on is translated into an executable Lean definition over explicit
state (lists of records in place of JSONL collections, oracles in place of
network and file-system effects, explicit parameters in place of ambient
randomness and wall-clock reads).  Node/standard-library primitives that the
code calls (`String.prototype.trim`, `Date` parsing, SHA-256, AES-256-GCM,
PBKDF2, base64, `JSON.stringify`/`parse`) are modelled either executably
(trim, UTF-16 length, line splitting) or as abstract functions bundled with
the algebraic laws those primitives provide.
-/

namespace XAgent

/-! ## JavaScript string primitives -/

/-- The ECMAScript whitespace characters recognised by `String.prototype.trim`
(the common subset actually reachable from this code base). -/
def isJsWhitespace (c : Char) : Bool :=
  c == ' ' || c == '\t' || c == '\n' || c == '\r' ||
  c == '\x0b' || c == '\x0c' || c == ' ' || c == ' ' || c == ' ' || c == '﻿'

/-- Model of `String.prototype.trim` on a character list: drop leading and
trailing whitespace. -/
def jsTrimList (cs : List Char) : List Char :=
  ((cs.dropWhile isJsWhitespace).reverse.dropWhile isJsWhitespace).reverse

/-- Model of `String.prototype.trim`. -/
def jsTrim (s : String) : String :=
  ⟨jsTrimList s.data⟩

/-- Model of the JavaScript `String.prototype.length`: the number of UTF-16
code units (astral code points count twice). -/
def utf16Len (s : String) : Nat :=
  s.data.foldl (fun n c => n + (if c.toNat < 65536 then 1 else 2)) 0

/-! ## Publish queue data model (`skills/x_schedule_skill.js`) -/

/-- A queue record as appended by `enqueuePost` and mutated by `publishDue`.
Optional JSON fields are `Option`s; JS-falsy "absent" strings are `""`. -/
structure QueueItem where
  id : String := ""
  content : String := ""
  content_hash : String := ""
  scheduled_at : String := ""
  status : String := ""
  retries : Nat := 0
  tweet_id : Option String := none
  posted_at : Option String := none
  last_error : Option String := none
  source : String := ""
  created_at : String := ""
  updated_at : String := ""
deriving DecidableEq

/-- The default used when the model reads a queue slot; `publishDue` only
indexes positions that exist, so it is never observed. -/
def emptyQueueItem : QueueItem := {}

/-- A record of the append-only `posts` collection, one per successful publish. -/
structure PostRecord where
  id : String := ""
  tweet_id : String := ""
  content : String := ""
  content_hash : String := ""
  source_schedule_id : String := ""
  posted_at : String := ""
deriving DecidableEq

/-- `contentHash` from `x_schedule_skill.js`: SHA-256 hex digest (abstracted as
`h`) of the trimmed text. -/
def contentHash (h : String → String) (text : String) : String :=
  h (jsTrim text)

/-- Input of `enqueuePost` (fields already coerced to strings as JS does). -/
structure EnqueueInput where
  content : String := ""
  scheduledAt : String := ""
  source : String := ""
deriving DecidableEq

/-- `enqueuePost(rootDir, input)`.  `h` models `sha256Hex`; `parseMs` models
`new Date(s).getTime()` with `none` for `NaN`; `isoOfMs` models
`Date.prototype.toISOString`; `newId` and `tNow` are the `createId` and
`nowIso()` draws.  On success the new record is appended to the queue. -/
def enqueuePost (h : String → String) (parseMs : String → Option Int) (isoOfMs : Int → String)
    (newId : String) (tNow : String) (queue : List QueueItem) (input : EnqueueInput) :
    Except String (QueueItem × List QueueItem) :=
  let content := jsTrim input.content
  if content = "" then
    .error "content is required"
  else if 280 < utf16Len content then
    .error "content must be 280 characters or fewer"
  else
    match parseMs input.scheduledAt with
    | none => .error "scheduled_at must be a valid ISO date-time"
    | some t =>
      let record : QueueItem := {
        id := newId,
        content := content,
        content_hash := contentHash h content,
        scheduled_at := isoOfMs t,
        status := "queued",
        retries := 0,
        created_at := tNow,
        updated_at := tNow,
        source := if input.source = "" then "agent" else input.source }
      .ok (record, queue ++ [record])

/-- Outcome of one `postNow` gateway call inside a `publishDue` batch: either
the platform response (`tweet_id`, `posted_at`) or a thrown error message. -/
inductive GwResult where
  | ok (tweet_id : String) (posted_at : String)
  | err (message : String)
deriving DecidableEq

/-- One entry of the per-item result list returned by `publishDue`. -/
structure ResultItem where
  schedule_id : String := ""
  status : String := ""
  tweet_id : Option String := none
  error : Option String := none
deriving DecidableEq

/-- The in-flight state of a `publishDue` batch: the mutated queue and posts
arrays, the in-batch duplicate index (`byContentHash`, a set modelled as a
list), the aggregate counters, the result list, and the number of gateway
calls made so far (`gwCalls`, the trace the idempotence claims speak about). -/
structure PubState where
  queue : List QueueItem := []
  posts : List PostRecord := []
  byContentHash : List String := []
  published : Nat := 0
  failed : Nat := 0
  skipped : Nat := 0
  items : List ResultItem := []
  gwCalls : Nat := 0
deriving DecidableEq

/-- The loop body of `publishDue` for one due index.  `h` models `sha256Hex`,
`gw` gives the outcome of the n-th gateway call of this batch, `mkPostId`
the n-th `createId("post")` draw, `nowIsoOpt` is `now.toISOString()` when the
caller supplied a deterministic `nowIso` (else `none`, in which case the
gateway's own `posted_at` is used), and `tNow` the `nowIso()` wall-clock
reading for `updated_at`. -/
def publishDueStep (h : String → String) (gw : Nat → GwResult) (mkPostId : Nat → String)
    (nowIsoOpt : Option String) (tNow : String) (st : PubState) (index : Nat) : PubState :=
  let item := st.queue.getD index emptyQueueItem
  let hash := if item.content_hash ≠ "" then item.content_hash else contentHash h item.content
  if hash ∈ st.byContentHash then
    { st with
      skipped := st.skipped + 1,
      queue := st.queue.set index { item with status := "skipped_duplicate", updated_at := tNow },
      items := st.items ++ [{ schedule_id := item.id, status := "skipped_duplicate" }] }
  else
    match gw st.gwCalls with
    | .ok tweetId gwPostedAt =>
      let postedAt := nowIsoOpt.getD gwPostedAt
      let postRecord : PostRecord := {
        id := mkPostId st.gwCalls,
        tweet_id := tweetId,
        content := item.content,
        content_hash := hash,
        source_schedule_id := item.id,
        posted_at := postedAt }
      { st with
        gwCalls := st.gwCalls + 1,
        byContentHash := hash :: st.byContentHash,
        posts := st.posts ++ [postRecord],
        queue := st.queue.set index { item with
          content_hash := hash,
          status := "published",
          tweet_id := some tweetId,
          posted_at := some postedAt,
          last_error := none,
          updated_at := tNow },
        published := st.published + 1,
        items := st.items ++ [{ schedule_id := item.id, status := "published", tweet_id := some tweetId }] }
    | .err msg =>
      { st with
        gwCalls := st.gwCalls + 1,
        queue := st.queue.set index { item with
          content_hash := hash,
          status := "publish_failed",
          retries := item.retries + 1,
          last_error := some msg,
          updated_at := tNow },
        failed := st.failed + 1,
        items := st.items ++ [{ schedule_id := item.id, status := "publish_failed", error := some msg }] }

/-- The due-and-retryable test of `publishDue`: `scheduled_at` parses to an
instant no later than `now`, and the status permits an attempt
(`queued`, or `publish_failed` with fewer than `maxRetries` retries). -/
def dueRetryable (maxRetries : Nat) (parseMs : String → Option Int) (nowMs : Int)
    (item : QueueItem) : Bool :=
  let due := match parseMs item.scheduled_at with
    | some t => decide (t ≤ nowMs)
    | none => false
  let retryable := item.status == "queued" ||
    (item.status == "publish_failed" && decide (item.retries < maxRetries))
  due && retryable

/-- The indexes of the due set, in original insertion order. -/
def dueIndexes (maxRetries : Nat) (parseMs : String → Option Int) (nowMs : Int)
    (queue : List QueueItem) : List Nat :=
  (List.range queue.length).filter
    (fun i => dueRetryable maxRetries parseMs nowMs (queue.getD i emptyQueueItem))

/-- The sort key of a due index: the item's `scheduled_at` string (the source
compares ISO-8601 strings). -/
def schedKey (queue : List QueueItem) (i : Nat) : String :=
  (queue.getD i emptyQueueItem).scheduled_at

/-- The due indexes stable-sorted ascending by `scheduled_at` (string order),
as the source's stable `Array.prototype.sort` does. -/
def sortedDueIndexes (maxRetries : Nat) (parseMs : String → Option Int) (nowMs : Int)
    (queue : List QueueItem) : List Nat :=
  (dueIndexes maxRetries parseMs nowMs queue).mergeSort
    (fun a b => decide (schedKey queue a ≤ schedKey queue b))

/-- What `publishDue` returns, together with the collections it overwrites
and the gateway-call count. -/
structure PubResult where
  published : Nat
  failed : Nat
  skipped : Nat
  items : List ResultItem
  queue : List QueueItem
  posts : List PostRecord
  gwCalls : Nat
deriving DecidableEq

/-- `publishDue(rootDir, options)`: seed the duplicate index from the existing
posts, select the first `limit` due indexes in scheduled order, and process
them sequentially with `publishDueStep`. -/
def publishDue (h : String → String) (parseMs : String → Option Int)
    (gw : Nat → GwResult) (mkPostId : Nat → String)
    (nowIsoOpt : Option String) (tNow : String)
    (maxRetries : Nat) (nowMs : Int) (limit : Nat)
    (queue : List QueueItem) (posts : List PostRecord) : PubResult :=
  let byContentHash := posts.map (fun post => post.content_hash)
  let batch := (sortedDueIndexes maxRetries parseMs nowMs queue).take limit
  let st := batch.foldl (publishDueStep h gw mkPostId nowIsoOpt tNow)
    { queue := queue, posts := posts, byContentHash := byContentHash }
  { published := st.published, failed := st.failed, skipped := st.skipped,
    items := st.items, queue := st.queue, posts := st.posts, gwCalls := st.gwCalls }

/-! ## Credential lifecycle manager (`skills/x_auth_skill.js`) -/

/-- The metadata object of an AuthEvent.  JS-absent string fields are `""`
(falsy), matching the truthiness tests of the source. -/
structure AuthMeta where
  state : String := ""
  code_verifier : String := ""
  redirect_uri : String := ""
  expires_at : String := ""
  scope : String := ""
  reason : String := ""
deriving DecidableEq

/-- One record of the append-only `authEvents` collection. -/
structure AuthEvent where
  id : String := ""
  event_type : String := ""
  status : String := ""
  metadata : AuthMeta := {}
  created_at : String := ""
deriving DecidableEq

/-- The set of states already consumed by an `oauth_complete`/`ok` event
(the `completedState` set built inside `findPendingStart`). -/
def completedStates (events : List AuthEvent) : List String :=
  (events.filter (fun e =>
    e.event_type == "oauth_complete" && e.status == "ok" && e.metadata.state != "")).map
    (fun e => e.metadata.state)

/-- `findPendingStart(events, state)`: the most recent pending `oauth_start`
whose state matches, unless any `oauth_complete` has consumed that state. -/
def findPendingStart (events : List AuthEvent) (state : String) : Option AuthEvent :=
  let candidates := (events.filter (fun e =>
      e.event_type == "oauth_start" && e.status == "pending" && e.metadata.state == state)).mergeSort
    (fun a b => decide (b.created_at ≤ a.created_at))
  match candidates.head? with
  | none => none
  | some target =>
    if state ∈ completedStates events then none else some target

/-- The parsed JSON body of a token-endpoint response (absent fields are
falsy `""`/`none`). -/
structure TokenData where
  access_token : String := ""
  refresh_token : String := ""
  token_type : String := ""
  scope : String := ""
  expires_in : Option Int := none
deriving DecidableEq

/-- The decrypted credential at rest. -/
structure Credential where
  access_token : String := ""
  refresh_token : String := ""
  token_type : String := ""
  scope : String := ""
  expires_at : String := ""
  obtained_at : String := ""
  refreshed_at : String := ""
deriving DecidableEq

/-- `calculateExpiry(expiresInSec)`: now plus `max(60, seconds)` seconds,
with 7200 s as the fallback when `expires_in` is absent or not finite. -/
def calculateExpiry (isoOfMs : Int → String) (nowMs : Int) (expiresIn : Option Int) : String :=
  let seconds := expiresIn.getD 7200
  isoOfMs (nowMs + max 60 seconds * 1000)

/-- Ambient context of an auth-skill call: `Date` parsing/printing, the
current instant, the `nowIso()` reading, a fresh event id, and the configured
scope list joined by spaces (the `oauth.scopes.join(" ")` fallback). -/
structure AuthEnv where
  parseMs : String → Option Int
  isoOfMs : Int → String
  nowMs : Int := 0
  nowIsoStr : String := ""
  newEventId : String := ""
  scopeJoined : String := ""

/-- `completeAuth(rootDir, {code, state})`.  `exchange` is the outcome of the
token-endpoint call.  On success, returns the credential that is stored
encrypted and the event log extended by the `oauth_complete`/`ok` event. -/
def completeAuth (env : AuthEnv) (exchange : Except String TokenData)
    (events : List AuthEvent) (code state : String) :
    Except String (Credential × List AuthEvent) :=
  if code = "" then .error "code is required"
  else if state = "" then .error "state is required"
  else
    match findPendingStart events state with
    | none => .error "No valid pending OAuth state found"
    | some pending =>
      if pending.metadata.expires_at != "" &&
          (match env.parseMs pending.metadata.expires_at with
            | some t => decide (t < env.nowMs)
            | none => false) then
        .error "OAuth state expired. Start auth again."
      else
        match exchange with
        | .error e => .error e
        | .ok token =>
          let credential : Credential := {
            access_token := token.access_token,
            refresh_token := token.refresh_token,
            token_type := if token.token_type ≠ "" then token.token_type else "bearer",
            scope := if token.scope ≠ "" then token.scope else env.scopeJoined,
            expires_at := calculateExpiry env.isoOfMs env.nowMs token.expires_in,
            obtained_at := env.nowIsoStr }
          let completeEvent : AuthEvent := {
            id := env.newEventId,
            event_type := "oauth_complete",
            status := "ok",
            metadata := { state := state, expires_at := credential.expires_at, scope := credential.scope },
            created_at := env.nowIsoStr }
          .ok (credential, events ++ [completeEvent])

/-- `refreshAuth(rootDir, reason)`.  `exchange` is the refresh-token grant
outcome.  On success returns the replacement credential that is stored and
the reason logged on the `oauth_refresh`/`ok` event. -/
def refreshAuth (env : AuthEnv) (exchange : Except String TokenData)
    (credOpt : Option Credential) (reason : String) :
    Except String (Credential × String) :=
  match credOpt with
  | none => .error "Refresh token not found. Reconnect OAuth."
  | some cred =>
    if cred.refresh_token = "" then .error "Refresh token not found. Reconnect OAuth."
    else
      match exchange with
      | .error e => .error e
      | .ok token =>
        let next : Credential := { cred with
          access_token := token.access_token,
          refresh_token := if token.refresh_token ≠ "" then token.refresh_token else cred.refresh_token,
          token_type := if token.token_type ≠ "" then token.token_type
            else if cred.token_type ≠ "" then cred.token_type else "bearer",
          scope := if token.scope ≠ "" then token.scope
            else if cred.scope ≠ "" then cred.scope else env.scopeJoined,
          expires_at := calculateExpiry env.isoOfMs env.nowMs token.expires_in,
          refreshed_at := env.nowIsoStr }
        .ok (next, reason)

/-- What `ensureAccessToken` hands back: the token and expiry it returns, the
credential state after the call, and the reasons of the refreshes it made. -/
structure EnsureResult where
  accessToken : String
  expiresAt : String
  cred : Option Credential
  refreshReasons : List String
deriving DecidableEq

/-- `ensureAccessToken(rootDir, minTtlSec)`: fail when disconnected; refresh
with reason `"expiring"` and return the freshly stored token when the stored
expiry is absent, unparseable, zero, or within `minTtlSec` of now; otherwise
return the current token unchanged. -/
def ensureAccessToken (env : AuthEnv) (exchange : Except String TokenData)
    (credOpt : Option Credential) (minTtlSec : Int) : Except String EnsureResult :=
  match credOpt with
  | none => .error "X credential not connected. Run auth start/complete."
  | some cred =>
    if cred.access_token = "" then
      .error "X credential not connected. Run auth start/complete."
    else
      let expiresAt : Option Int :=
        if cred.expires_at = "" then some 0 else env.parseMs cred.expires_at
      let threshold := env.nowMs + minTtlSec * 1000
      let mustRefresh := match expiresAt with
        | none => true
        | some t => t == 0 || decide (t ≤ threshold)
      if mustRefresh then
        match refreshAuth env exchange (some cred) "expiring" with
        | .error e => .error e
        | .ok (next, reason) =>
          if next.access_token = "" then .error "Failed to refresh access token"
          else .ok { accessToken := next.access_token, expiresAt := next.expires_at,
                     cred := some next, refreshReasons := [reason] }
      else
        .ok { accessToken := cred.access_token, expiresAt := cred.expires_at,
              cred := some cred, refreshReasons := [] }

/-! ## Live platform gateway (`skills/x_gateway.js`) -/

/-- An HTTP response as the live gateway sees it: the status code and the
parsed JSON body (abstracted as a string; `response.json()` failures already
defaulted to `{}` by the source). -/
structure HttpResp where
  status : Nat := 0
  data : String := ""
deriving DecidableEq

/-- `response.ok`: status in the 2xx range. -/
def respOk (r : HttpResp) : Bool :=
  200 ≤ r.status && r.status ≤ 299

/-- `requestWithToken(operation, buildRequest, attempt)` of the live gateway.
`ensure` is the outcome of the `ensureAccessToken` call of each attempt
(its token on success); `respond` gives the HTTP response for a token and
attempt number.  Returns the result together with the list of forced-refresh
reasons and the number of HTTP calls made. -/
def requestWithToken (op : String) (ensure : Nat → Except String String)
    (respond : String → Nat → HttpResp) (attempt : Nat) :
    Except String String × List String × Nat :=
  match ensure attempt with
  | .error e => (.error e, [], 0)
  | .ok token =>
    let response := respond token attempt
    if hr : response.status = 401 ∧ attempt = 1 then
      let rest := requestWithToken op ensure respond (attempt + 1)
      (rest.1, ("api_" ++ op ++ "_unauthorized") :: rest.2.1, rest.2.2 + 1)
    else
      if respOk response then (.ok response.data, [], 1)
      else (.error ("X API " ++ op ++ " failed: " ++ toString response.status ++ " " ++ response.data), [], 1)
termination_by 2 - attempt
decreasing_by
  simp only [hr.2]
  omega

/-! ## Durable collection store (`src/jsonl.js`) -/

/-- `Array.prototype.join("\n")` over serialized records. -/
def joinLines : List (List Char) → List Char
  | [] => []
  | [l] => l
  | l :: rest => l ++ '\n' :: joinLines rest

/-- `String.prototype.split("\n")`: splitting an empty string yields one
empty line, and every newline separates two (possibly empty) lines. -/
def splitNl : List Char → List (List Char)
  | [] => [[]]
  | c :: rest =>
    let r := splitNl rest
    if c = '\n' then [] :: r
    else
      match r with
      | [] => [[c]]
      | hd :: tl => (c :: hd) :: tl

/-- `writeJsonl(filePath, records)`: serialize each record (`ser` models
`JSON.stringify`), join with newlines, and append a trailing newline when the
body is non-empty.  The file content is modelled as a character list. -/
def writeJsonl (ser : α → List Char) (records : List α) : List Char :=
  let body := joinLines (records.map ser)
  if body = [] then [] else body ++ ['\n']

/-- The `.map(JSON.parse)` step of `readJsonl`: JS evaluates left to right and
the first parse failure throws. -/
def parseLines (deser : List Char → Option α) : List (List Char) → Except String (List α)
  | [] => .ok []
  | l :: rest =>
    match deser l with
    | none => .error "JSON parse error"
    | some v =>
      match parseLines deser rest with
      | .error e => .error e
      | .ok vs => .ok (v :: vs)

/-- `readJsonl(filePath)`: split into lines, trim each, drop blank lines,
parse the rest. -/
def readJsonl (deser : List Char → Option α) (content : List Char) : Except String (List α) :=
  parseLines deser (((splitNl content).map jsTrimList).filter (fun l => l ≠ []))

/-! ## Envelope crypto (`src/secrets_crypto.js`)

Byte strings (Node `Buffer`s) are modelled as `List β` over an abstract byte
type; the base64 transport encoding of the envelope fields is a bijection
handled entirely by Node, so envelope fields hold the byte lists themselves.
AES-256-GCM and PBKDF2 are abstract operations bundled with the laws an
ideal authenticated cipher and an ideal (collision-free) KDF provide. -/

/-- Ideal model of the AES-256-GCM AEAD used by the envelope: `enc` maps key,
IV and plaintext to ciphertext and tag; `dec` authenticates and inverts it.
The laws say decryption inverts encryption, anything `dec` accepts is the
honest encryption under that very key and IV (authentication), identical
outputs come from identical keys and, at fixed key and IV, identical
plaintexts (injectivity), ciphertexts and tags are non-empty, and tags are at
most 16 bytes (the length `decryptObject` truncates to). -/
structure AeadSpec (β : Type) (κ : Type) where
  enc : κ → List β → String → List β × List β
  dec : κ → List β → List β → List β → Option String
  dec_enc : ∀ k iv m, dec k iv (enc k iv m).1 (enc k iv m).2 = some m
  dec_sound : ∀ k iv c t m, dec k iv c t = some m → enc k iv m = (c, t)
  enc_key_inj : ∀ k k' iv m m', enc k iv m = enc k' iv m' → k = k'
  ct_inj : ∀ k iv m m', (enc k iv m).1 = (enc k iv m').1 → m = m'
  tag_inj : ∀ k iv m m', (enc k iv m).2 = (enc k iv m').2 → m = m'
  ct_ne : ∀ k iv m, (enc k iv m).1 ≠ []
  tag_ne : ∀ k iv m, (enc k iv m).2 ≠ []
  tag_short : ∀ k iv m, (enc k iv m).2.length ≤ 16

/-- Ideal model of `PBKDF2-HMAC-SHA256(masterKey, salt, 210000, 32)`: the
derived keys of distinct master keys never collide at the same salt. -/
structure KdfSpec (β : Type) (κ : Type) where
  kdf : String → List β → κ
  kdf_key_inj : ∀ mk mk' salt, kdf mk salt = kdf mk' salt → mk = mk'

/-- The `EncryptedEnvelope` JSON object; binary fields are byte lists (their
on-disk base64 encoding being a bijection). -/
structure Envelope (β : Type) where
  version : Int := 0
  algorithm : String := ""
  kdf : String := ""
  iterations : Nat := 0
  salt : List β := []
  iv : List β := []
  tag : List β := []
  ciphertext : List β := []
  encryptedAt : String := ""

/-- `encryptObject(value)`: derive a key from the master key and a fresh salt,
encrypt the JSON serialization (`ser` models `JSON.stringify`) under a fresh
IV, and package the envelope.  The master key comes from the environment and
must be non-empty; `salt` and `iv` are the `randomBytes` draws. -/
def encryptObject (A : AeadSpec β κ) (K : KdfSpec β κ) (ser : α → String)
    (nowStr : String) (masterKey : String) (salt iv : List β) (value : α) :
    Except String (Envelope β) :=
  if masterKey = "" then .error "AGENT_X_SECRETS_KEY is required"
  else
    let key := K.kdf masterKey salt
    let encrypted := A.enc key iv (ser value)
    .ok { version := 1, algorithm := "aes-256-gcm", kdf := "pbkdf2-sha256",
          iterations := 210000, salt := salt, iv := iv,
          tag := encrypted.2, ciphertext := encrypted.1, encryptedAt := nowStr }

/-- `decryptObject(payload)`: check the version, reject empty binary fields,
re-derive the key from the stored salt, authenticate-and-decrypt with the tag
truncated to 16 bytes, and parse the plaintext (`deser` models
`JSON.parse`). -/
def decryptObject (A : AeadSpec β κ) (K : KdfSpec β κ) (deser : String → Option α)
    (masterKey : String) (payload : Envelope β) : Except String α :=
  if payload.version ≠ 1 then .error "Unsupported secret payload version"
  else if masterKey = "" then .error "AGENT_X_SECRETS_KEY is required"
  else if payload.salt.length = 0 ∨ payload.iv.length = 0 ∨ payload.tag.length = 0 ∨ payload.ciphertext.length = 0 then
    .error "Encrypted payload is invalid"
  else
    let key := K.kdf masterKey payload.salt
    match A.dec key payload.iv payload.ciphertext (payload.tag.take 16) with
    | none => .error "Unsupported state or unable to authenticate data"
    | some plaintext =>
      match deser plaintext with
      | none => .error "JSON parse error"
      | some v => .ok v

/-! ## Auxiliary definitions for statements and witnesses -/

/-- Whether an `Except` computation succeeded. -/
def exceptOk : Except ε α → Bool
  | .ok _ => true
  | .error _ => false

/-- A concrete instance of the ideal-AEAD interface, used to witness that the
`AeadSpec` laws are satisfiable: the ciphertext and tag both carry the key and
the message as a one-element byte list over the byte type `String × String`. -/
def toyAead : AeadSpec (String × String) String where
  enc := fun k _ m => ([(k, m)], [(k, m)])
  dec := fun k _ c t =>
    match c, t with
    | [(k1, m0)], [(k2, m1)] =>
      if k1 = k ∧ k2 = k ∧ m1 = m0 then some m0 else none
    | _, _ => none
  dec_enc := by
    intro k iv m
    simp
  dec_sound := by
    intro k iv c t m h
    match c, t with
    | [(k1, m0)], [(k2, m1)] =>
      simp only at h
      split at h
      · rename_i hc
        cases h
        simp [hc.1, hc.2.1, hc.2.2]
      · cases h
    | [], _ => cases h
    | (_ :: _ :: _), _ => cases h
    | [_], [] => cases h
    | [_], (_ :: _ :: _) => cases h
  enc_key_inj := by
    intro k k' iv m m' h
    simp only [Prod.mk.injEq, List.cons.injEq] at h
    exact h.1.1.1
  ct_inj := by
    intro k iv m m' h
    simp only [List.cons.injEq, Prod.mk.injEq] at h
    exact h.1.2
  tag_inj := by
    intro k iv m m' h
    simp only [List.cons.injEq, Prod.mk.injEq] at h
    exact h.1.2
  ct_ne := by intro k iv m; simp
  tag_ne := by intro k iv m; simp
  tag_short := by intro k iv m; simp

/-- A concrete instance of the ideal-KDF interface (collision-free in the
master key), used to witness that the `KdfSpec` laws are satisfiable. -/
def toyKdf : KdfSpec (String × String) String where
  kdf := fun mk _ => mk
  kdf_key_inj := by intro mk mk' salt h; exact h

/-- Concrete auth environment used by the C3 witness scenario: `"exp1"`
parses to instant 100 ms, the clock reads 50 ms. -/
def c3Env : AuthEnv where
  parseMs := fun s => if s = "exp1" then some 100 else none
  isoOfMs := fun _ => "EXP"
  nowMs := 50
  nowIsoStr := "now50"
  newEventId := "ev2"
  scopeJoined := "sc"

/-- The same environment with the clock at 200 ms, past the stored expiry. -/
def c3EnvLate : AuthEnv :=
  { c3Env with nowMs := 200 }

/-- Token-endpoint outcome used by the C3 witness scenario. -/
def c3Exchange : Except String TokenData :=
  .ok { access_token := "AT", refresh_token := "RT", token_type := "", scope := "",
        expires_in := none }

/-- A pending `oauth_start` event for state `"ST"` expiring at `"exp1"`. -/
def c3StartEvent : AuthEvent where
  id := "s1"
  event_type := "oauth_start"
  status := "pending"
  metadata := { state := "ST", code_verifier := "v", redirect_uri := "u", expires_at := "exp1" }
  created_at := "t1"

/-- The credential `completeAuth` stores in the C3 witness scenario. -/
def c3Credential : Credential where
  access_token := "AT"
  refresh_token := "RT"
  token_type := "bearer"
  scope := "sc"
  expires_at := "EXP"
  obtained_at := "now50"

/-- The `oauth_complete`/`ok` event `completeAuth` appends in the C3 witness
scenario, consuming state `"ST"`. -/
def c3CompleteEvent : AuthEvent where
  id := "ev2"
  event_type := "oauth_complete"
  status := "ok"
  metadata := { state := "ST", expires_at := "EXP", scope := "sc" }
  created_at := "now50"

/-- Date parser used by the queue witness scenarios. -/
def c5Parse : String → Option Int :=
  fun s => if s = "1000" then some 1000 else if s = "2999" then some 2999 else none

/-- Queue used by the C5 witness scenario: item 0 is scheduled in the future,
item 1 is due. -/
def c5Queue : List QueueItem :=
  [{ id := "f", content := "cf", content_hash := "hf", scheduled_at := "2999",
     status := "queued", retries := 0 },
   { id := "d", content := "cd", content_hash := "hd", scheduled_at := "1000",
     status := "queued", retries := 0 }]

/-- First queued item of the C1 witness scenario (duplicate content "x"). -/
def c1QueueA : QueueItem :=
  { id := "q1", content := "x", content_hash := "x", scheduled_at := "s",
    status := "queued", retries := 0 }

/-- Second queued item of the C1 witness scenario (same content "x"). -/
def c1QueueB : QueueItem :=
  { id := "q2", content := "x", content_hash := "x", scheduled_at := "s",
    status := "queued", retries := 0 }

/-! ## Lemmas about the string primitives -/

theorem jsTrimList_eq_rdrop (cs : List Char) :
    jsTrimList cs = List.rdropWhile isJsWhitespace (cs.dropWhile isJsWhitespace) := by
  simp [jsTrimList, List.rdropWhile]

/-- Trimming is idempotent. -/
theorem jsTrimList_idem (cs : List Char) : jsTrimList (jsTrimList cs) = jsTrimList cs := by
  rw [jsTrimList_eq_rdrop, jsTrimList_eq_rdrop]
  have hhead := List.head?_dropWhile_not isJsWhitespace cs
  obtain ⟨rest, hrest⟩ :=
    List.rdropWhile_prefix isJsWhitespace (cs.dropWhile isJsWhitespace)
  rcases hpre : List.rdropWhile isJsWhitespace (cs.dropWhile isJsWhitespace) with _ | ⟨x, t⟩
  · simp [List.rdropWhile_nil]
  · rw [hpre] at hrest
    have hx : isJsWhitespace x = false := by
      rw [← hrest] at hhead
      simpa using hhead
    rw [List.dropWhile_cons_of_neg (by simp [hx])]
    rw [← hpre]
    exact List.rdropWhile_idempotent isJsWhitespace (cs.dropWhile isJsWhitespace)

/-- A list of whitespace characters trims to nothing. -/
theorem jsTrimList_eq_nil (cs : List Char) (h : ∀ c ∈ cs, isJsWhitespace c) :
    jsTrimList cs = [] := by
  rw [jsTrimList_eq_rdrop, List.dropWhile_eq_nil_iff.mpr h, List.rdropWhile_nil]

theorem jsTrim_idem (s : String) : jsTrim (jsTrim s) = jsTrim s := by
  show (⟨jsTrimList (jsTrimList s.data)⟩ : String) = ⟨jsTrimList s.data⟩
  rw [jsTrimList_idem]

theorem jsTrim_eq_empty_iff {s : String} : jsTrim s = "" ↔ jsTrimList s.data = [] := by
  rw [String.ext_iff]
  rfl

/-! ## Claims about `enqueuePost` (C7, C10) -/

set_option maxRecDepth 8192 in
/-- C7 (counterexample): the claim says content of 281 or more UTF-16 code
units fails with a ValidationError, but `enqueuePost` trims first: a 281-unit
content whose trimmed form has 280 units is accepted. -/
theorem c7_trailing_whitespace_counterexample :
    utf16Len (String.mk (List.replicate 280 'a' ++ [' '])) = 281 ∧
    exceptOk (enqueuePost (fun s => s) (fun _ => some 0) (fun t => toString t) "id1" "t0" []
      { content := String.mk (List.replicate 280 'a' ++ [' ']), scheduledAt := "0", source := "" }) = true := by
  constructor
  · decide
  · decide

/-- C7 (amended): `enqueuePost` validates the trimmed content: it rejects
content that trims to empty, rejects trimmed content longer than 280 UTF-16
code units, accepts trimmed content of up to 280 units, rejects an
unparseable `scheduledAt`, and on success appends exactly one new record with
`status = "queued"`, `retries = 0` and `content_hash` = SHA-256 of the
trimmed content, leaving the existing queue records undisturbed. -/
theorem c7_enqueue_validation (h : String → String) (parseMs : String → Option Int)
    (isoOfMs : Int → String) (newId tNow : String) (queue : List QueueItem)
    (input : EnqueueInput) :
    (jsTrim input.content = "" →
      enqueuePost h parseMs isoOfMs newId tNow queue input = .error "content is required") ∧
    (jsTrim input.content ≠ "" → 280 < utf16Len (jsTrim input.content) →
      enqueuePost h parseMs isoOfMs newId tNow queue input =
        .error "content must be 280 characters or fewer") ∧
    (jsTrim input.content ≠ "" → utf16Len (jsTrim input.content) ≤ 280 →
      parseMs input.scheduledAt = none →
      enqueuePost h parseMs isoOfMs newId tNow queue input =
        .error "scheduled_at must be a valid ISO date-time") ∧
    (∀ t, jsTrim input.content ≠ "" → utf16Len (jsTrim input.content) ≤ 280 →
      parseMs input.scheduledAt = some t →
      ∃ r, enqueuePost h parseMs isoOfMs newId tNow queue input = .ok (r, queue ++ [r]) ∧
        r.status = "queued" ∧ r.retries = 0 ∧ r.content = jsTrim input.content ∧
        r.content_hash = h (jsTrim input.content) ∧ r.scheduled_at = isoOfMs t) := by
  refine ⟨?_, ?_, ?_, ?_⟩
  · intro he
    simp [enqueuePost, he]
  · intro hne hlen
    simp only [enqueuePost]
    rw [if_neg hne, if_pos hlen]
  · intro hne hle hp
    simp only [enqueuePost, hp]
    rw [if_neg hne, if_neg (Nat.not_lt.mpr hle)]
  · intro t hne hle hp
    simp only [enqueuePost, hp]
    rw [if_neg hne, if_neg (Nat.not_lt.mpr hle)]
    exact ⟨_, rfl, rfl, rfl, rfl, by simp [contentHash, jsTrim_idem], rfl⟩

/-- C7 (witness): concrete instances of the amended claim: whitespace-only
content is rejected as empty, and a parseable 4-character content is
enqueued as `queued` with zero retries. -/
theorem c7_enqueue_validation_witness :
    (enqueuePost (fun s => s) (fun _ => some 5) (fun t => toString t) "id1" "t0" []
      { content := "   ", scheduledAt := "5", source := "" } = .error "content is required") ∧
    (∃ r, enqueuePost (fun s => s) (fun _ => some 5) (fun t => toString t) "id1" "t0" []
      { content := " hi ", scheduledAt := "5", source := "" } = .ok (r, [] ++ [r]) ∧
      r.status = "queued" ∧ r.retries = 0 ∧ r.content = jsTrim " hi " ∧
      r.content_hash = jsTrim " hi " ∧ r.scheduled_at = toString (5 : Int)) := by
  constructor
  · exact (c7_enqueue_validation (fun s => s) (fun _ => some 5) (fun t => toString t)
      "id1" "t0" [] { content := "   ", scheduledAt := "5", source := "" }).1 (by decide)
  · exact (c7_enqueue_validation (fun s => s) (fun _ => some 5) (fun t => toString t)
      "id1" "t0" [] { content := " hi ", scheduledAt := "5", source := "" }).2.2.2 5
      (by decide) (by decide) (by decide)

/-- C10: `enqueuePost` trims before every check and before storage:
whitespace-only content is rejected as empty; the 280-unit limit applies to
the trimmed content only (no hypothesis on the raw length); and the stored
record's `content` is the trimmed string, which is itself trim-stable and is
exactly the string the `content_hash` is computed over. -/
theorem c10_enqueue_trims (h : String → String) (parseMs : String → Option Int)
    (isoOfMs : Int → String) (newId tNow : String) (queue : List QueueItem)
    (input : EnqueueInput) :
    ((∀ c ∈ input.content.data, isJsWhitespace c) →
      enqueuePost h parseMs isoOfMs newId tNow queue input = .error "content is required") ∧
    (∀ t, jsTrim input.content ≠ "" → utf16Len (jsTrim input.content) ≤ 280 →
      parseMs input.scheduledAt = some t →
      ∃ r, enqueuePost h parseMs isoOfMs newId tNow queue input = .ok (r, queue ++ [r]) ∧
        r.content = jsTrim input.content ∧
        jsTrim r.content = r.content ∧
        r.content_hash = h r.content) := by
  constructor
  · intro hws
    have he : jsTrim input.content = "" := by
      rw [jsTrim_eq_empty_iff]
      exact jsTrimList_eq_nil _ hws
    simp [enqueuePost, he]
  · intro t hne hle hp
    simp only [enqueuePost, hp]
    rw [if_neg hne, if_neg (Nat.not_lt.mpr hle)]
    exact ⟨_, rfl, rfl, jsTrim_idem _, by simp [contentHash, jsTrim_idem]⟩

set_option maxRecDepth 8192 in
/-- C10 (witness): a 281-unit input whose trimmed form has 280 units is
accepted, stored trimmed, and hashed over the stored string; a whitespace-only
input is rejected as empty. -/
theorem c10_enqueue_trims_witness :
    (enqueuePost (fun s => s) (fun _ => some 7) (fun t => toString t) "id1" "t0" []
      { content := " \t\n ", scheduledAt := "5", source := "" } = .error "content is required") ∧
    (utf16Len (String.mk (' ' :: List.replicate 280 'b')) = 281 ∧
    (∃ r, enqueuePost (fun s => s) (fun _ => some 7) (fun t => toString t) "id2" "t0" []
      { content := String.mk (' ' :: List.replicate 280 'b'), scheduledAt := "7", source := "" } =
        .ok (r, [] ++ [r]) ∧
      r.content = jsTrim (String.mk (' ' :: List.replicate 280 'b')) ∧
      jsTrim r.content = r.content ∧
      r.content_hash = r.content)) := by
  refine ⟨?_, ?_, ?_⟩
  · exact (c10_enqueue_trims (fun s => s) (fun _ => some 7) (fun t => toString t)
      "id1" "t0" [] { content := " \t\n ", scheduledAt := "5", source := "" }).1 (by decide)
  · decide
  · exact (c10_enqueue_trims (fun s => s) (fun _ => some 7) (fun t => toString t)
      "id2" "t0" [] { content := String.mk (' ' :: List.replicate 280 'b'), scheduledAt := "7", source := "" }).2
      7 (by decide) (by decide) (by decide)

/-! ## Lemmas about the collection store (C9) -/

theorem splitNl_ne_nil (cs : List Char) : splitNl cs ≠ [] := by
  induction cs with
  | nil => simp [splitNl]
  | cons c rest ih =>
    simp only [splitNl]
    by_cases hc : c = '\n'
    · simp [hc]
    · simp only [if_neg hc]
      rcases h : splitNl rest with _ | ⟨hd, tl⟩
      · simp
      · simp

/-- A trailing newline contributes one trailing empty line. -/
theorem splitNl_append_newline (cs : List Char) :
    splitNl (cs ++ ['\n']) = splitNl cs ++ [[]] := by
  induction cs with
  | nil => simp [splitNl]
  | cons c rest ih =>
    simp only [List.cons_append, splitNl, ih]
    by_cases hc : c = '\n'
    · simp [hc, ih]
    · simp only [if_neg hc]
      rcases h : splitNl rest with _ | ⟨hd, tl⟩
      · exact absurd h (splitNl_ne_nil rest)
      · simp [h, ih]

/-- Splitting past a newline-free chunk prepends it to the first line. -/
theorem splitNl_append_of_no_newline (l cs : List Char) (h : '\n' ∉ l)
    (hd : List Char) (tl : List (List Char)) (hcs : splitNl cs = hd :: tl) :
    splitNl (l ++ cs) = (l ++ hd) :: tl := by
  induction l with
  | nil => simpa using hcs
  | cons c rest ih =>
    have hc : c ≠ '\n' := by
      intro hcn
      exact h (hcn ▸ List.mem_cons_self c rest)
    have hrest : '\n' ∉ rest := fun hm => h (List.mem_cons_of_mem c hm)
    simp only [List.cons_append, splitNl, if_neg hc, List.append_eq, ih hrest]

/-- `join("\n")` followed by a trailing newline splits back into the original
lines plus one trailing empty line. -/
theorem splitNl_joinLines (lines : List (List Char)) (hnl : ∀ l ∈ lines, '\n' ∉ l)
    (hne : lines ≠ []) :
    splitNl (joinLines lines ++ ['\n']) = lines ++ [[]] := by
  induction lines with
  | nil => exact absurd rfl hne
  | cons l rest ih =>
    rcases rest with _ | ⟨l2, rest2⟩
    · have hl : '\n' ∉ l := hnl l (List.mem_cons_self l [])
      have : splitNl (['\n'] : List Char) = [] :: [[]] := by simp [splitNl]
      simpa [joinLines] using
        splitNl_append_of_no_newline l ['\n'] hl [] [[]] this
    · have hl : '\n' ∉ l := hnl l (List.mem_cons_self l _)
      have hrest : ∀ m ∈ l2 :: rest2, '\n' ∉ m := fun m hm => hnl m (List.mem_cons_of_mem l hm)
      have ihr := ih hrest (by simp)
      have hstep : splitNl ('\n' :: (joinLines (l2 :: rest2) ++ ['\n'])) =
          [] :: ((l2 :: rest2) ++ [[]]) := by
        simp [splitNl, ihr]
      have := splitNl_append_of_no_newline l ('\n' :: (joinLines (l2 :: rest2) ++ ['\n'])) hl
        [] ((l2 :: rest2) ++ [[]]) hstep
      simpa [joinLines] using this

theorem jsTrimList_nil : jsTrimList ([] : List Char) = [] := rfl

/-- Parsing the serializations of a record list recovers the records. -/
theorem parseLines_map_ser (deser : List Char → Option α) (ser : α → List Char)
    (rs : List α) (h : ∀ r ∈ rs, deser (ser r) = some r) :
    parseLines deser (rs.map ser) = .ok rs := by
  induction rs with
  | nil => rfl
  | cons r rest ih =>
    have hr := h r (List.mem_cons_self r rest)
    have hrest := ih (fun x hx => h x (List.mem_cons_of_mem r hx))
    simp only [List.map_cons, parseLines, hr, hrest]

/-- Appending a trailing newline to a file adds only a blank line, which
`readJsonl` skips. -/
theorem readJsonl_append_newline (deser : List Char → Option α) (content : List Char) :
    readJsonl deser (content ++ ['\n']) = readJsonl deser content := by
  simp [readJsonl, splitNl_append_newline, jsTrimList_nil]

/-- Trailing blank lines never affect `readJsonl`. -/
theorem readJsonl_append_replicate (deser : List Char → Option α) (content : List Char)
    (k : Nat) :
    readJsonl deser (content ++ List.replicate k '\n') = readJsonl deser content := by
  induction k generalizing content with
  | zero => simp
  | succ n ih =>
    have hsplit : content ++ List.replicate (n + 1) '\n' =
        (content ++ ['\n']) ++ List.replicate n '\n' := by
      simp [List.replicate_succ]
    rw [hsplit, ih, readJsonl_append_newline]

/-- C9: overwriting a collection with `writeJsonl` and reading it back with
`readJsonl` returns a deep-equal list in the same order, provided each
record's serialization has no raw newline, is non-blank and whitespace-stable
(as `JSON.stringify` output is), and deserializes back to the record.  The
empty list reads back empty, and extra blank lines are skipped, never
throwing. -/
theorem c9_jsonl_roundtrip (ser : α → List Char) (deser : List Char → Option α)
    (rs : List α)
    (hnl : ∀ r ∈ rs, '\n' ∉ ser r)
    (htrim : ∀ r ∈ rs, jsTrimList (ser r) = ser r)
    (hblank : ∀ r ∈ rs, ser r ≠ [])
    (hdeser : ∀ r ∈ rs, deser (ser r) = some r) :
    readJsonl deser (writeJsonl ser rs) = .ok rs ∧
    readJsonl deser (writeJsonl ser ([] : List α)) = .ok [] ∧
    (∀ k, readJsonl deser (writeJsonl ser rs ++ List.replicate k '\n') = .ok rs) := by
  have hmain : readJsonl deser (writeJsonl ser rs) = .ok rs := by
    rcases rs with _ | ⟨r0, rest⟩
    · simp [writeJsonl, readJsonl, joinLines, splitNl, jsTrimList_nil, parseLines]
    · have hbody : joinLines ((r0 :: rest).map ser) ≠ [] := by
        have h0 : ser r0 ≠ [] := hblank r0 (List.mem_cons_self r0 rest)
        rcases rest with _ | ⟨r1, rest1⟩
        · simpa [joinLines] using h0
        · simp only [List.map_cons, joinLines]
          intro hcontra
          exact h0 (List.append_eq_nil.mp hcontra).1
      have hsplit := splitNl_joinLines ((r0 :: rest).map ser)
        (by intro l hl
            obtain ⟨r, hr, hrl⟩ := List.mem_map.mp hl
            exact hrl ▸ hnl r hr)
        (by simp)
      have htrimmap : ((r0 :: rest).map ser).map jsTrimList = (r0 :: rest).map ser := by
        rw [List.map_map]
        exact List.map_congr_left (fun r hr => htrim r hr)
      have hfilter : (((r0 :: rest).map ser).filter (fun l => decide (l ≠ []))) =
          (r0 :: rest).map ser := by
        rw [List.filter_eq_self]
        intro l hl
        obtain ⟨r, hr, hrl⟩ := List.mem_map.mp hl
        simpa [hrl] using hblank r hr
      rw [writeJsonl]
      simp only [if_neg hbody]
      rw [readJsonl, hsplit]
      rw [List.map_append, htrimmap, List.filter_append, hfilter]
      have hlast : (List.map jsTrimList [[]]).filter (fun l => decide (l ≠ [])) = [] := by
        simp [jsTrimList_nil]
      rw [hlast, List.append_nil]
      exact parseLines_map_ser deser ser (r0 :: rest) hdeser
  refine ⟨hmain, by simp [writeJsonl, readJsonl, joinLines, splitNl, jsTrimList_nil, parseLines], ?_⟩
  intro k
  rw [readJsonl_append_replicate]
  exact hmain

/-- C9 (witness): a concrete three-record collection round-trips through
`writeJsonl`/`readJsonl`, the empty collection reads back empty, and two
extra trailing blank lines are skipped. -/
theorem c9_jsonl_roundtrip_witness :
    readJsonl (fun l => match l with | ['t'] => some true | ['f'] => some false | _ => none)
      (writeJsonl (fun b => if b then ['t'] else ['f']) [true, false, true]) =
      .ok [true, false, true] ∧
    readJsonl (fun l => match l with | ['t'] => some true | ['f'] => some false | _ => none)
      (writeJsonl (fun b => if b then ['t'] else ['f']) ([] : List Bool)) = .ok [] ∧
    readJsonl (fun l => match l with | ['t'] => some true | ['f'] => some false | _ => none)
      (writeJsonl (fun b => if b then ['t'] else ['f']) [true, false, true] ++
        List.replicate 2 '\n') = .ok [true, false, true] := by
  have base := c9_jsonl_roundtrip (fun b => if b then ['t'] else ['f'])
    (fun l => match l with | ['t'] => some true | ['f'] => some false | _ => none)
    [true, false, true] (by decide) (by decide) (by decide) (by decide)
  exact ⟨base.1, base.2.1, base.2.2 2⟩

/-! ## Claim about the live gateway 401 policy (C4) -/

/-- C4: for a live-gateway operation, a 401 on the first attempt forces
exactly one refresh with reason `api_<operation>_unauthorized` and exactly one
retry; the retried response decides the outcome (2xx succeeds, anything else
propagates as an error with no further refresh); a non-401 non-2xx first
response propagates immediately with no refresh; a 2xx first response
succeeds with no refresh. -/
theorem c4_gateway_retry_policy (op : String) (ensure : Nat → Except String String)
    (respond : String → Nat → HttpResp) (tok1 tok2 : String)
    (hens1 : ensure 1 = .ok tok1) (hens2 : ensure 2 = .ok tok2) :
    ((respond tok1 1).status = 401 →
      (requestWithToken op ensure respond 1).2.1 = ["api_" ++ op ++ "_unauthorized"] ∧
      (requestWithToken op ensure respond 1).2.2 = 2 ∧
      (respOk (respond tok2 2) = true →
        (requestWithToken op ensure respond 1).1 = .ok (respond tok2 2).data) ∧
      (respOk (respond tok2 2) = false →
        (requestWithToken op ensure respond 1).1 =
          .error ("X API " ++ op ++ " failed: " ++ toString (respond tok2 2).status ++ " " ++
            (respond tok2 2).data))) ∧
    ((respond tok1 1).status ≠ 401 → respOk (respond tok1 1) = false →
      (requestWithToken op ensure respond 1).2.1 = [] ∧
      (requestWithToken op ensure respond 1).2.2 = 1 ∧
      (requestWithToken op ensure respond 1).1 =
        .error ("X API " ++ op ++ " failed: " ++ toString (respond tok1 1).status ++ " " ++
          (respond tok1 1).data)) ∧
    (respOk (respond tok1 1) = true →
      (requestWithToken op ensure respond 1).2.1 = [] ∧
      (requestWithToken op ensure respond 1).2.2 = 1 ∧
      (requestWithToken op ensure respond 1).1 = .ok (respond tok1 1).data) := by
  refine ⟨?_, ?_, ?_⟩
  · intro h401
    by_cases hok : respOk (respond tok2 2) <;>
      simp [requestWithToken, hens1, hens2, h401, hok]
  · intro hne hnok
    simp [requestWithToken, hens1, hne, hnok]
  · intro hok
    have hne : (respond tok1 1).status ≠ 401 := by
      intro hcontra
      have hbad : respOk (respond tok1 1) = false := by simp [respOk, hcontra]
      rw [hbad] at hok
      cases hok
    simp [requestWithToken, hens1, hne, hok]

/-- C4 (witness): with a first response of 401 and a 2xx retry, the call
succeeds after exactly one forced refresh and two HTTP calls. -/
theorem c4_gateway_retry_policy_witness :
    (requestWithToken "publish" (fun _ => .ok "tok")
      (fun _ a => if a = 1 then { status := 401, data := "" } else { status := 200, data := "yay" }) 1).2.1 =
      ["api_publish_unauthorized"] ∧
    (requestWithToken "publish" (fun _ => .ok "tok")
      (fun _ a => if a = 1 then { status := 401, data := "" } else { status := 200, data := "yay" }) 1).2.2 = 2 ∧
    (requestWithToken "publish" (fun _ => .ok "tok")
      (fun _ a => if a = 1 then { status := 401, data := "" } else { status := 200, data := "yay" }) 1).1 =
      .ok "yay" := by
  have base := c4_gateway_retry_policy "publish" (fun _ => .ok "tok")
    (fun _ a => if a = 1 then { status := 401, data := "" } else { status := 200, data := "yay" })
    "tok" "tok" rfl rfl
  have h401 := base.1 (by decide)
  exact ⟨h401.1, h401.2.1, h401.2.2.1 (by decide)⟩

/-! ## Claim about `ensureAccessToken` (C8) -/

/-- C8: `ensureAccessToken` fails with the not-connected error when the
credential is absent or lacks an access token; when the stored expiry is
strictly beyond `now + minTtlSeconds` it returns the current token with no
refresh and no change to the credential; when the remaining lifetime is at
most `minTtlSeconds` it refreshes with reason `"expiring"` and returns the
freshly stored token. -/
theorem c8_ensure_access_token (env : AuthEnv) (exchange : Except String TokenData)
    (cred : Credential) (minTtlSec t : Int)
    (hnow : 0 ≤ env.nowMs) (httl : 0 ≤ minTtlSec)
    (hacc : cred.access_token ≠ "")
    (hexp : cred.expires_at ≠ "") (hparse : env.parseMs cred.expires_at = some t) :
    (ensureAccessToken env exchange none minTtlSec =
      .error "X credential not connected. Run auth start/complete.") ∧
    (∀ c : Credential, c.access_token = "" →
      ensureAccessToken env exchange (some c) minTtlSec =
        .error "X credential not connected. Run auth start/complete.") ∧
    (env.nowMs + minTtlSec * 1000 < t →
      ensureAccessToken env exchange (some cred) minTtlSec =
        .ok { accessToken := cred.access_token, expiresAt := cred.expires_at,
              cred := some cred, refreshReasons := [] }) ∧
    (t ≤ env.nowMs + minTtlSec * 1000 →
      ∀ token : TokenData, exchange = .ok token → token.access_token ≠ "" →
        cred.refresh_token ≠ "" →
        ∃ next : Credential,
          refreshAuth env exchange (some cred) "expiring" = .ok (next, "expiring") ∧
          ensureAccessToken env exchange (some cred) minTtlSec =
            .ok { accessToken := next.access_token, expiresAt := next.expires_at,
                  cred := some next, refreshReasons := ["expiring"] } ∧
          next.access_token = token.access_token) := by
  refine ⟨rfl, ?_, ?_, ?_⟩
  · intro c hc
    simp [ensureAccessToken, hc]
  · intro hgt
    have ht0 : (t == 0) = false := by
      have : t ≠ 0 := by omega
      simpa using this
    have htle : ¬(t ≤ env.nowMs + minTtlSec * 1000) := by omega
    simp [ensureAccessToken, hacc, hexp, hparse, ht0, htle]
  · intro hle token hex htok hrt
    refine ⟨{ cred with
        access_token := token.access_token,
        refresh_token := if token.refresh_token ≠ "" then token.refresh_token else cred.refresh_token,
        token_type := if token.token_type ≠ "" then token.token_type
          else if cred.token_type ≠ "" then cred.token_type else "bearer",
        scope := if token.scope ≠ "" then token.scope
          else if cred.scope ≠ "" then cred.scope else env.scopeJoined,
        expires_at := calculateExpiry env.isoOfMs env.nowMs token.expires_in,
        refreshed_at := env.nowIsoStr }, ?_, ?_, rfl⟩
    · simp [refreshAuth, hrt, hex]
    · simp [ensureAccessToken, hacc, hexp, hparse, hle, refreshAuth, hrt, hex, htok]

/-- C8 (witness): with `minTtl = 120` s and `now = 1000` ms, a credential
expiring at 10^9 ms is returned unrefreshed, while one expiring at 2000 ms
triggers exactly one refresh with reason `"expiring"` that stores and returns
the exchanged token. -/
theorem c8_ensure_access_token_witness :
    (ensureAccessToken
      { parseMs := fun s => if s = "far" then some 1000000000 else if s = "soon" then some 2000 else none,
        isoOfMs := fun t => toString t, nowMs := 1000, nowIsoStr := "n", newEventId := "e",
        scopeJoined := "sc" }
      (.ok { access_token := "NEW", refresh_token := "R2", token_type := "", scope := "", expires_in := some 7200 })
      (some { access_token := "A", refresh_token := "R", expires_at := "far" }) 120 =
      .ok { accessToken := "A", expiresAt := "far",
            cred := some { access_token := "A", refresh_token := "R", expires_at := "far" },
            refreshReasons := [] }) ∧
    (∃ next : Credential,
      ensureAccessToken
        { parseMs := fun s => if s = "far" then some 1000000000 else if s = "soon" then some 2000 else none,
          isoOfMs := fun t => toString t, nowMs := 1000, nowIsoStr := "n", newEventId := "e",
          scopeJoined := "sc" }
        (.ok { access_token := "NEW", refresh_token := "R2", token_type := "", scope := "", expires_in := some 7200 })
        (some { access_token := "A", refresh_token := "R", expires_at := "soon" }) 120 =
        .ok { accessToken := next.access_token, expiresAt := next.expires_at,
              cred := some next, refreshReasons := ["expiring"] } ∧
      next.access_token = "NEW") := by
  constructor
  · exact (c8_ensure_access_token
      { parseMs := fun s => if s = "far" then some 1000000000 else if s = "soon" then some 2000 else none,
        isoOfMs := fun t => toString t, nowMs := 1000, nowIsoStr := "n", newEventId := "e",
        scopeJoined := "sc" }
      (.ok { access_token := "NEW", refresh_token := "R2", token_type := "", scope := "", expires_in := some 7200 })
      { access_token := "A", refresh_token := "R", expires_at := "far" } 120 1000000000
      (by decide) (by decide) (by decide) (by decide) (by decide)).2.2.1 (by decide)
  · obtain ⟨next, _, hrun, hacc⟩ := (c8_ensure_access_token
      { parseMs := fun s => if s = "far" then some 1000000000 else if s = "soon" then some 2000 else none,
        isoOfMs := fun t => toString t, nowMs := 1000, nowIsoStr := "n", newEventId := "e",
        scopeJoined := "sc" }
      (.ok { access_token := "NEW", refresh_token := "R2", token_type := "", scope := "", expires_in := some 7200 })
      { access_token := "A", refresh_token := "R", expires_at := "soon" } 120 2000
      (by decide) (by decide) (by decide) (by decide) (by decide)).2.2.2 (by decide)
      { access_token := "NEW", refresh_token := "R2", token_type := "", scope := "", expires_in := some 7200 }
      rfl (by decide) (by decide)
    exact ⟨next, hrun, hacc⟩

/-! ## Claim about `completeAuth` (C3) -/

/-- Any `oauth_complete`/`ok` event consumes its state for good: once one is
in the log, `findPendingStart` no longer returns a candidate for it. -/
theorem findPendingStart_consumed (events : List AuthEvent) (state : String) (e : AuthEvent)
    (he : e ∈ events) (ht : e.event_type = "oauth_complete") (hs : e.status = "ok")
    (hst : e.metadata.state = state) (hne : state ≠ "") :
    findPendingStart events state = none := by
  have hmem : state ∈ completedStates events := by
    apply List.mem_map.mpr
    refine ⟨e, ?_, hst⟩
    apply List.mem_filter.mpr
    refine ⟨he, ?_⟩
    simp [ht, hs, hst, hne]
  simp only [findPendingStart]
  generalize ((List.filter (fun e =>
      e.event_type == "oauth_start" && e.status == "pending" && e.metadata.state == state)
      events).mergeSort (fun a b => decide (b.created_at ≤ a.created_at))).head? = o
  cases o with
  | none => rfl
  | some tgt => simp [hmem]

/-- C3: `completeAuth` fails with the distinct `not found` error when no
matching pending start exists or the state has been consumed by any
`oauth_complete` event; it fails with the distinct `expired` error when the
matched pending start's stored expiry has elapsed; and a state completed
successfully once can never complete again (the appended `oauth_complete`
event consumes it). -/
theorem c3_complete_auth (env env2 : AuthEnv) (exchange exchange2 : Except String TokenData)
    (events : List AuthEvent) (code state : String) :
    (code ≠ "" → state ≠ "" → findPendingStart events state = none →
      completeAuth env exchange events code state =
        .error "No valid pending OAuth state found") ∧
    ((∀ e ∈ events, ¬(e.event_type = "oauth_start" ∧ e.status = "pending" ∧
        e.metadata.state = state)) →
      findPendingStart events state = none) ∧
    (∀ e ∈ events, e.event_type = "oauth_complete" → e.status = "ok" →
      e.metadata.state = state → state ≠ "" → findPendingStart events state = none) ∧
    (∀ p, code ≠ "" → state ≠ "" → findPendingStart events state = some p →
      p.metadata.expires_at ≠ "" →
      ∀ te, env.parseMs p.metadata.expires_at = some te → te < env.nowMs →
      completeAuth env exchange events code state =
        .error "OAuth state expired. Start auth again.") ∧
    (("No valid pending OAuth state found" : String) ≠ "OAuth state expired. Start auth again.") ∧
    (∀ credv events2 code2, completeAuth env exchange events code state = .ok (credv, events2) →
      code2 ≠ "" →
      completeAuth env2 exchange2 events2 code2 state =
        .error "No valid pending OAuth state found") := by
  refine ⟨?_, ?_, fun e he => findPendingStart_consumed events state e he, ?_, by decide, ?_⟩
  · intro h1 h2 h3
    simp [completeAuth, h1, h2, h3]
  · intro h
    have hfil : List.filter (fun e =>
        e.event_type == "oauth_start" && e.status == "pending" && e.metadata.state == state)
        events = [] := by
      rw [List.filter_eq_nil_iff]
      intro e he
      simp only [Bool.and_eq_true, beq_iff_eq, not_and]
      intro h1 h2
      exact h e he ⟨h1.1, h1.2, h2⟩
    simp [findPendingStart, hfil]
  · intro p h1 h2 hf hexp te hp hlt
    have hcond : (p.metadata.expires_at != "" &&
        (match env.parseMs p.metadata.expires_at with
          | some t => decide (t < env.nowMs)
          | none => false)) = true := by
      rw [hp]
      simp [hexp, hlt]
    simp [completeAuth, h1, h2, hf, hcond]
  · intro credv events2 code2 hsucc hcode2
    by_cases hc : code = ""
    · simp [completeAuth, hc] at hsucc
    · by_cases hs : state = ""
      · simp [completeAuth, hc, hs] at hsucc
      · rcases hf : findPendingStart events state with _ | p
        · simp [completeAuth, hc, hs, hf] at hsucc
        · by_cases hexp : (p.metadata.expires_at != "" &&
            (match env.parseMs p.metadata.expires_at with
              | some t => decide (t < env.nowMs)
              | none => false)) = true
          · simp [completeAuth, hc, hs, hf, hexp] at hsucc
          · rcases hex : exchange with e | token
            · simp [completeAuth, hc, hs, hf, hexp, hex] at hsucc
            · simp only [completeAuth, if_neg hc, if_neg hs, hf, hexp, hex,
                Bool.not_eq_true] at hsucc
              rw [if_neg (by simp [hexp])] at hsucc
              injection hsucc with hpair
              injection hpair with hcred hev
              have hfind2 : findPendingStart events2 state = none := by
                rw [← hev]
                exact findPendingStart_consumed _ state _
                  (List.mem_append_right _ (List.mem_singleton.mpr rfl)) rfl rfl rfl hs
              simp [completeAuth, hcode2, hs, hfind2]

/-- C3 (witness): with one pending start for state `"ST"`: completing an
unknown state fails `not found`; completing `"ST"` past its stored expiry
fails `expired`; completing `"ST"` in time succeeds, and completing it a
second time on the extended log fails `not found`. -/
theorem c3_complete_auth_witness :
    (completeAuth c3Env c3Exchange [c3StartEvent] "C" "OTHER" =
      .error "No valid pending OAuth state found") ∧
    (completeAuth c3EnvLate c3Exchange [c3StartEvent] "C" "ST" =
      .error "OAuth state expired. Start auth again.") ∧
    (completeAuth c3Env c3Exchange [c3StartEvent, c3CompleteEvent] "C2" "ST" =
      .error "No valid pending OAuth state found") := by
  have hfindO : findPendingStart [c3StartEvent] "OTHER" = none := by
    simp [findPendingStart, completedStates, c3StartEvent]
  have hfindST : findPendingStart [c3StartEvent] "ST" = some c3StartEvent := by
    simp [findPendingStart, completedStates, c3StartEvent]
  refine ⟨?_, ?_, ?_⟩
  · exact (c3_complete_auth c3Env c3Env c3Exchange c3Exchange [c3StartEvent] "C" "OTHER").1
      (by decide) (by decide) hfindO
  · exact (c3_complete_auth c3EnvLate c3EnvLate c3Exchange c3Exchange
      [c3StartEvent] "C" "ST").2.2.2.1 c3StartEvent (by decide) (by decide) hfindST
      (by decide) 100 (by decide) (by decide)
  · have hsucc : completeAuth c3Env c3Exchange [c3StartEvent] "C" "ST" =
        .ok (c3Credential, [c3StartEvent, c3CompleteEvent]) := by
      simp only [completeAuth, hfindST]
      simp [c3Env, c3Exchange, c3StartEvent, c3Credential, c3CompleteEvent, calculateExpiry]
    exact (c3_complete_auth c3Env c3Env c3Exchange c3Exchange
      [c3StartEvent] "C" "ST").2.2.2.2.2 c3Credential [c3StartEvent, c3CompleteEvent] "C2"
      hsucc (by decide)

/-! ## Claim about the envelope crypto (C2) -/

/-- C2: for any ideal AEAD and KDF (the laws AES-256-GCM and PBKDF2 provide),
any JSON round-trippable value `x`, non-empty master key, and non-empty salt
and IV draws: `decryptObject` of `encryptObject x` under the same key returns
exactly `x`; decryption under any other key fails the authentication check
with an error, never returning a value, as does decryption of an envelope
whose ciphertext or effective tag has been tampered with, whose version is
not 1, or whose binary fields are empty. -/
theorem c2_envelope_crypto {β κ α : Type} (A : AeadSpec β κ) (K : KdfSpec β κ)
    (ser : α → String) (deser : String → Option α)
    (nowStr masterKey : String) (salt iv : List β) (x : α)
    (hmk : masterKey ≠ "") (hsalt : salt ≠ []) (hiv : iv ≠ [])
    (hdeser : deser (ser x) = some x) :
    ∃ e : Envelope β, encryptObject A K ser nowStr masterKey salt iv x = .ok e ∧
      decryptObject A K deser masterKey e = .ok x ∧
      (∀ mk2, mk2 ≠ masterKey → mk2 ≠ "" →
        decryptObject A K deser mk2 e =
          .error "Unsupported state or unable to authenticate data") ∧
      (∀ c2, c2 ≠ [] → c2 ≠ e.ciphertext →
        decryptObject A K deser masterKey { e with ciphertext := c2 } =
          .error "Unsupported state or unable to authenticate data") ∧
      (∀ t2, t2 ≠ [] → t2.take 16 ≠ e.tag →
        decryptObject A K deser masterKey { e with tag := t2 } =
          .error "Unsupported state or unable to authenticate data") ∧
      (∀ v, v ≠ 1 → decryptObject A K deser masterKey { e with version := v } =
        .error "Unsupported secret payload version") ∧
      (decryptObject A K deser masterKey { e with salt := [] } =
        .error "Encrypted payload is invalid") ∧
      (decryptObject A K deser masterKey { e with ciphertext := [] } =
        .error "Encrypted payload is invalid") := by
  set key := K.kdf masterKey salt with hkey
  set enc := A.enc key iv (ser x) with hencx
  refine ⟨{ version := 1, algorithm := "aes-256-gcm", kdf := "pbkdf2-sha256",
            iterations := 210000, salt := salt, iv := iv,
            tag := enc.2, ciphertext := enc.1, encryptedAt := nowStr },
    ?_, ?_, ?_, ?_, ?_, ?_, ?_, ?_⟩
  · simp [encryptObject, hmk]
  · have htake : enc.2.take 16 = enc.2 := List.take_of_length_le (by rw [hencx]; exact A.tag_short _ _ _)
    simp only [decryptObject]
    rw [if_neg (by simp), if_neg hmk,
      if_neg (by simp [hsalt, hiv, hencx, A.ct_ne, A.tag_ne])]
    simp only [htake, ← hkey, hencx, A.dec_enc, hdeser]
  · intro mk2 hne2 hne0
    have htake : enc.2.take 16 = enc.2 := List.take_of_length_le (by rw [hencx]; exact A.tag_short _ _ _)
    have hdec : A.dec (K.kdf mk2 salt) iv enc.1 (enc.2.take 16) = none := by
      rcases hd : A.dec (K.kdf mk2 salt) iv enc.1 (enc.2.take 16) with _ | m
      · rfl
      · exfalso
        rw [htake] at hd
        have hsound := A.dec_sound _ _ _ _ _ hd
        have henc2 : A.enc (K.kdf mk2 salt) iv m = A.enc key iv (ser x) := by
          rw [hsound, hencx]
        exact hne2 (K.kdf_key_inj _ _ _ (A.enc_key_inj _ _ _ _ _ henc2))
    simp only [decryptObject]
    rw [if_neg (by simp), if_neg hne0,
      if_neg (by simp [hsalt, hiv, hencx, A.ct_ne, A.tag_ne]), hdec]
  · intro c2 hc2ne hc2
    have htake : enc.2.take 16 = enc.2 := List.take_of_length_le (by rw [hencx]; exact A.tag_short _ _ _)
    have hdec : A.dec key iv c2 (enc.2.take 16) = none := by
      rcases hd : A.dec key iv c2 (enc.2.take 16) with _ | m
      · rfl
      · exfalso
        rw [htake] at hd
        have hsound := A.dec_sound _ _ _ _ _ hd
        have hm : m = ser x := by
          apply A.tag_inj key iv
          rw [congrArg Prod.snd hsound, hencx]
        rw [hm, ← hencx] at hsound
        exact hc2 (by simpa using congrArg Prod.fst hsound.symm)
    simp only [decryptObject]
    rw [if_neg (by simp), if_neg hmk,
      if_neg (by simp [hsalt, hiv, hencx, A.tag_ne, hc2ne]), hdec]
  · intro t2 ht2ne ht2
    have hdec : A.dec key iv enc.1 (t2.take 16) = none := by
      rcases hd : A.dec key iv enc.1 (t2.take 16) with _ | m
      · rfl
      · exfalso
        have hsound := A.dec_sound _ _ _ _ _ hd
        have hm : m = ser x := by
          apply A.ct_inj key iv
          rw [congrArg Prod.fst hsound, hencx]
        rw [hm, ← hencx] at hsound
        exact ht2 (by simpa using congrArg Prod.snd hsound.symm)
    simp only [decryptObject]
    rw [if_neg (by simp), if_neg hmk,
      if_neg (by simp [hsalt, hiv, hencx, A.ct_ne, ht2ne]), hdec]
  · intro v hv
    simp [decryptObject, hv]
  · simp [decryptObject, hmk]
  · simp only [decryptObject]
    rw [if_neg (by simp), if_neg hmk, if_pos (by simp)]

/-- C2 (witness): the round trip and every failure mode hold at a concrete
instance of the ideal interfaces — `toyAead`/`toyKdf` — with key `"k"`, a
one-byte salt and IV, and the value `"hi"`. -/
theorem c2_envelope_crypto_witness :
    ∃ e : Envelope (String × String),
      encryptObject toyAead toyKdf (fun s => s) "enc-at" "k" [("s", "")] [("i", "")] "hi" = .ok e ∧
      decryptObject toyAead toyKdf some "k" e = .ok "hi" ∧
      (∀ mk2, mk2 ≠ "k" → mk2 ≠ "" →
        decryptObject toyAead toyKdf some mk2 e =
          .error "Unsupported state or unable to authenticate data") ∧
      (∀ c2, c2 ≠ [] → c2 ≠ e.ciphertext →
        decryptObject toyAead toyKdf some "k" { e with ciphertext := c2 } =
          .error "Unsupported state or unable to authenticate data") ∧
      (∀ t2, t2 ≠ [] → t2.take 16 ≠ e.tag →
        decryptObject toyAead toyKdf some "k" { e with tag := t2 } =
          .error "Unsupported state or unable to authenticate data") ∧
      (∀ v, v ≠ 1 → decryptObject toyAead toyKdf some "k" { e with version := v } =
        .error "Unsupported secret payload version") ∧
      (decryptObject toyAead toyKdf some "k" { e with salt := [] } =
        .error "Encrypted payload is invalid") ∧
      (decryptObject toyAead toyKdf some "k" { e with ciphertext := [] } =
        .error "Encrypted payload is invalid") :=
  c2_envelope_crypto toyAead toyKdf (fun s => s) some "enc-at" "k" [("s", "")] [("i", "")] "hi"
    (by decide) (by simp) (by simp) rfl

/-! ## Lemmas about the publish queue (C1, C5, C6) -/

theorem getD_eq_getElem_of_lt {α : Type} {l : List α} {i : Nat} (hi : i < l.length) (d : α) :
    l.getD i d = l[i] := by
  rw [List.getD_eq_getElem?_getD, List.getElem?_eq_getElem hi]
  rfl

theorem getD_mem_of_lt {α : Type} {l : List α} {i : Nat} (hi : i < l.length) (d : α) :
    l.getD i d ∈ l := by
  rw [getD_eq_getElem_of_lt hi]
  exact List.getElem_mem hi

/-- Under the terminal-statuses hypothesis, no queue index is due. -/
theorem dueIndexes_eq_nil (maxRetries : Nat) (parseMs : String → Option Int) (nowMs : Int)
    (queue : List QueueItem)
    (hterm : ∀ item ∈ queue, (∀ t, parseMs item.scheduled_at = some t → t ≤ nowMs) →
      item.status = "published" ∨ item.status = "skipped_duplicate" ∨
      (item.status = "publish_failed" ∧ maxRetries ≤ item.retries)) :
    dueIndexes maxRetries parseMs nowMs queue = [] := by
  rw [dueIndexes, List.filter_eq_nil_iff]
  intro i hi
  rw [List.mem_range] at hi
  have hmem : queue.getD i emptyQueueItem ∈ queue := getD_mem_of_lt hi _
  set item := queue.getD i emptyQueueItem with hitem
  intro hcontra
  simp only [dueRetryable, Bool.and_eq_true, Bool.or_eq_true, beq_iff_eq,
    decide_eq_true_eq] at hcontra
  obtain ⟨hdue, hretry⟩ := hcontra
  rcases hp : parseMs item.scheduled_at with _ | t
  · rw [hp] at hdue
    cases hdue
  · rw [hp] at hdue
    simp only [decide_eq_true_eq] at hdue
    have hterm' := hterm item hmem (fun t' ht' => by
      rw [hp] at ht'
      injection ht' with he
      rw [← he]
      exact hdue)
    rcases hretry with hq | ⟨hpf, hlt⟩
    · rcases hterm' with h1 | h1 | ⟨h1, _⟩ <;> rw [hq] at h1 <;> exact absurd h1 (by decide)
    · rcases hterm' with h1 | h1 | ⟨h1, h2⟩
      · rw [hpf] at h1
        exact absurd h1 (by decide)
      · rw [hpf] at h1
        exact absurd h1 (by decide)
      · omega

/-- C6: once every due item is terminal (`published`, `skipped_duplicate`, or
`publish_failed` at `maxRetries`), `publishDue` makes zero gateway calls,
returns zero counts and an empty item list, and leaves the queue and posts
collections unchanged. -/
theorem c6_publish_due_idempotent (h : String → String) (parseMs : String → Option Int)
    (gw : Nat → GwResult) (mkPostId : Nat → String) (nowIsoOpt : Option String) (tNow : String)
    (maxRetries : Nat) (nowMs : Int) (limit : Nat)
    (queue : List QueueItem) (posts : List PostRecord)
    (hterm : ∀ item ∈ queue, (∀ t, parseMs item.scheduled_at = some t → t ≤ nowMs) →
      item.status = "published" ∨ item.status = "skipped_duplicate" ∨
      (item.status = "publish_failed" ∧ maxRetries ≤ item.retries)) :
    publishDue h parseMs gw mkPostId nowIsoOpt tNow maxRetries nowMs limit queue posts =
      { published := 0, failed := 0, skipped := 0, items := [],
        queue := queue, posts := posts, gwCalls := 0 } := by
  have hdue := dueIndexes_eq_nil maxRetries parseMs nowMs queue hterm
  simp [publishDue, sortedDueIndexes, hdue]

/-- C6 (witness): on a queue whose two due items are `published` and
`publish_failed` at `maxRetries`, re-invoking `publishDue` with the same
instant changes nothing and calls no gateway. -/
theorem c6_publish_due_idempotent_witness :
    publishDue (fun s => s) (fun _ => some 0) (fun _ => .ok "t" "p") (fun _ => "id")
      none "t9" 5 10 5
      [{ id := "a", status := "published", scheduled_at := "s1", retries := 0 },
       { id := "b", status := "publish_failed", scheduled_at := "s2", retries := 5 }]
      [{ id := "p1", content_hash := "h1" }] =
      { published := 0, failed := 0, skipped := 0, items := [],
        queue := [{ id := "a", status := "published", scheduled_at := "s1", retries := 0 },
                  { id := "b", status := "publish_failed", scheduled_at := "s2", retries := 5 }],
        posts := [{ id := "p1", content_hash := "h1" }], gwCalls := 0 } := by
  exact c6_publish_due_idempotent (fun s => s) (fun _ => some 0) (fun _ => .ok "t" "p")
    (fun _ => "id") none "t9" 5 10 5
    [{ id := "a", status := "published", scheduled_at := "s1", retries := 0 },
     { id := "b", status := "publish_failed", scheduled_at := "s2", retries := 5 }]
    [{ id := "p1", content_hash := "h1" }] (by decide)

/-- Membership in the due set, in the claim's terms. -/
theorem mem_dueIndexes (maxRetries : Nat) (parseMs : String → Option Int) (nowMs : Int)
    (queue : List QueueItem) (i : Nat) :
    i ∈ dueIndexes maxRetries parseMs nowMs queue ↔
      i < queue.length ∧
      (∃ t, parseMs (queue.getD i emptyQueueItem).scheduled_at = some t ∧ t ≤ nowMs) ∧
      ((queue.getD i emptyQueueItem).status = "queued" ∨
        ((queue.getD i emptyQueueItem).status = "publish_failed" ∧
          (queue.getD i emptyQueueItem).retries < maxRetries)) := by
  rw [dueIndexes, List.mem_filter, List.mem_range]
  set item := queue.getD i emptyQueueItem
  constructor
  · rintro ⟨hi, hdr⟩
    refine ⟨hi, ?_, ?_⟩
    · simp only [dueRetryable, Bool.and_eq_true] at hdr
      rcases hp : parseMs item.scheduled_at with _ | t
      · rw [hp] at hdr
        cases hdr.1
      · rw [hp] at hdr
        exact ⟨t, rfl, by simpa using hdr.1⟩
    · simp only [dueRetryable, Bool.and_eq_true, Bool.or_eq_true, beq_iff_eq,
        decide_eq_true_eq] at hdr
      exact hdr.2
  · rintro ⟨hi, ⟨t, hp, hle⟩, hretry⟩
    refine ⟨hi, ?_⟩
    simp only [dueRetryable, Bool.and_eq_true, Bool.or_eq_true, beq_iff_eq,
      decide_eq_true_eq]
    exact ⟨by rw [hp]; simpa using hle, hretry⟩

theorem dueIndexes_pairwise_lt (maxRetries : Nat) (parseMs : String → Option Int) (nowMs : Int)
    (queue : List QueueItem) :
    (dueIndexes maxRetries parseMs nowMs queue).Pairwise (· < ·) :=
  (List.pairwise_lt_range queue.length).filter _

/-- In a strictly increasing list, any two members in order form a sublist. -/
theorem sublist_pair_of_pairwise_lt {l : List Nat} (hl : l.Pairwise (· < ·)) {a b : Nat}
    (ha : a ∈ l) (hb : b ∈ l) (hab : a < b) : List.Sublist [a, b] l := by
  induction l with
  | nil => cases ha
  | cons x t ih =>
    rcases List.mem_cons.mp ha with rfl | hat
    · rcases List.mem_cons.mp hb with heq | hbt
      · omega
      · exact (List.singleton_sublist.mpr hbt).cons₂ a
    · rcases List.mem_cons.mp hb with heq | hbt
      · have := (List.pairwise_cons.mp hl).1 a hat
        omega
      · exact (ih (List.pairwise_cons.mp hl).2 hat hbt).cons x

/-- A two-element sublist gives two ordered positions. -/
theorem sublist_pair_indices {α : Type} {x y : α} {l : List α} (h : List.Sublist [x, y] l) :
    ∃ i j, ∃ (hi : i < l.length) (hj : j < l.length),
      i < j ∧ l.get ⟨i, hi⟩ = x ∧ l.get ⟨j, hj⟩ = y := by
  induction l with
  | nil => cases h
  | cons z t ih =>
    cases h with
    | cons _ h2 =>
      obtain ⟨i, j, hi, hj, hij, hx, hy⟩ := ih h2
      exact ⟨i + 1, j + 1, by simpa using hi, by simpa using hj, by omega,
        by simpa using hx, by simpa using hy⟩
    | cons₂ _ h2 =>
      have hyt := List.singleton_sublist.mp h2
      obtain ⟨j, hj, hyj⟩ := List.getElem_of_mem hyt
      exact ⟨0, j + 1, by simp, by simpa using hj, by omega, rfl, by simpa using hyj⟩

/-- The stable sort of the due indexes is ordered by `scheduled_at` (string
order), with ties broken by the original insertion order. -/
theorem sortedDueIndexes_pairwise (maxRetries : Nat) (parseMs : String → Option Int)
    (nowMs : Int) (queue : List QueueItem) :
    (sortedDueIndexes maxRetries parseMs nowMs queue).Pairwise
      (fun a b => schedKey queue a < schedKey queue b ∨
        (schedKey queue a = schedKey queue b ∧ a < b)) := by
  set d := dueIndexes maxRetries parseMs nowMs queue with hd
  set le := fun a b => decide (schedKey queue a ≤ schedKey queue b) with hle
  have hdpair : d.Pairwise (· < ·) := dueIndexes_pairwise_lt maxRetries parseMs nowMs queue
  have htrans : ∀ a b c : Nat, le a b → le b c → le a c := by
    intro a b c hab hbc
    simp only [hle, decide_eq_true_eq] at hab hbc ⊢
    exact le_trans hab hbc
  have htotal : ∀ a b : Nat, (le a b || le b a) = true := by
    intro a b
    rcases le_total (schedKey queue a) (schedKey queue b) with hab | hba
    · rw [Bool.or_eq_true]
      exact Or.inl (decide_eq_true hab)
    · rw [Bool.or_eq_true]
      exact Or.inr (decide_eq_true hba)
  have hsorted := List.sorted_mergeSort htrans htotal d
  have hperm := List.mergeSort_perm d le
  have hnd : (d.mergeSort le).Nodup :=
    hperm.nodup_iff.mpr (hdpair.imp (fun hab => Nat.ne_of_lt hab))
  rw [sortedDueIndexes, ← hd, ← hle]
  rw [List.pairwise_iff_getElem]
  intro i j hi hj hij
  have hle2 : schedKey queue ((d.mergeSort le)[i]) ≤ schedKey queue ((d.mergeSort le)[j]) := by
    have h0 := List.pairwise_iff_getElem.mp hsorted i j hi hj hij
    exact of_decide_eq_true h0
  rcases lt_or_eq_of_le hle2 with hlt | heq
  · exact Or.inl hlt
  · refine Or.inr ⟨heq, ?_⟩
    by_contra hnotlt
    have hne : (d.mergeSort le)[i] ≠ (d.mergeSort le)[j] := by
      intro hcontra
      have := hnd.getElem_inj_iff.mp hcontra
      omega
    have hba : (d.mergeSort le)[j] < (d.mergeSort le)[i] := by omega
    have hmemi : (d.mergeSort le)[i] ∈ d :=
      List.mem_mergeSort.mp (List.getElem_mem hi)
    have hmemj : (d.mergeSort le)[j] ∈ d :=
      List.mem_mergeSort.mp (List.getElem_mem hj)
    have hsub : List.Sublist [(d.mergeSort le)[j], (d.mergeSort le)[i]] d :=
      sublist_pair_of_pairwise_lt hdpair hmemj hmemi hba
    have hlba : le ((d.mergeSort le)[j]) ((d.mergeSort le)[i]) = true :=
      decide_eq_true (le_of_eq heq.symm)
    have hsubS : List.Sublist [(d.mergeSort le)[j], (d.mergeSort le)[i]] (d.mergeSort le) :=
      List.pair_sublist_mergeSort htrans htotal hlba hsub
    obtain ⟨i2, j2, hi2, hj2, hij2, hx2, hy2⟩ := sublist_pair_indices hsubS
    have hieq : i2 = j := hnd.getElem_inj_iff.mp (by simpa [List.get_eq_getElem] using hx2)
    have hjeq : j2 = i := hnd.getElem_inj_iff.mp (by simpa [List.get_eq_getElem] using hy2)
    omega

/-- Each loop step rewrites exactly its own queue slot. -/
theorem publishDueStep_queue_set (h : String → String) (gw : Nat → GwResult)
    (mkPostId : Nat → String) (nowIsoOpt : Option String) (tNow : String)
    (st : PubState) (j : Nat) :
    ∃ v, (publishDueStep h gw mkPostId nowIsoOpt tNow st j).queue = st.queue.set j v := by
  simp only [publishDueStep]
  repeat' split
  all_goals exact ⟨_, rfl⟩

/-- Each loop step settles exactly one item: one of the three counters rises
by one, one result entry is appended, and at most one gateway call is made. -/
theorem publishDueStep_counts (h : String → String) (gw : Nat → GwResult)
    (mkPostId : Nat → String) (nowIsoOpt : Option String) (tNow : String)
    (st : PubState) (j : Nat) :
    (publishDueStep h gw mkPostId nowIsoOpt tNow st j).published +
      (publishDueStep h gw mkPostId nowIsoOpt tNow st j).failed +
      (publishDueStep h gw mkPostId nowIsoOpt tNow st j).skipped =
      st.published + st.failed + st.skipped + 1 ∧
    (publishDueStep h gw mkPostId nowIsoOpt tNow st j).items.length = st.items.length + 1 ∧
    (publishDueStep h gw mkPostId nowIsoOpt tNow st j).gwCalls ≤ st.gwCalls + 1 := by
  simp only [publishDueStep]
  repeat' split
  all_goals refine ⟨by dsimp only; omega, by dsimp only; simp, by dsimp only; omega⟩

theorem foldl_step_queue_length (h : String → String) (gw : Nat → GwResult)
    (mkPostId : Nat → String) (nowIsoOpt : Option String) (tNow : String)
    (batch : List Nat) :
    ∀ st : PubState,
      ((batch.foldl (publishDueStep h gw mkPostId nowIsoOpt tNow) st).queue.length =
        st.queue.length) := by
  induction batch with
  | nil => intro st; rfl
  | cons j rest ih =>
    intro st
    obtain ⟨v, hv⟩ := publishDueStep_queue_set h gw mkPostId nowIsoOpt tNow st j
    rw [List.foldl_cons, ih, hv, List.length_set]

/-- Items outside the processed batch are untouched. -/
theorem foldl_step_frame (h : String → String) (gw : Nat → GwResult)
    (mkPostId : Nat → String) (nowIsoOpt : Option String) (tNow : String)
    (batch : List Nat) :
    ∀ (st : PubState) (i : Nat), i ∉ batch →
      (batch.foldl (publishDueStep h gw mkPostId nowIsoOpt tNow) st).queue.getD i
        emptyQueueItem = st.queue.getD i emptyQueueItem := by
  induction batch with
  | nil => intro st i hni; rfl
  | cons j rest ih =>
    intro st i hni
    have hij : j ≠ i := fun hcontra => hni (hcontra ▸ List.mem_cons_self j rest)
    have hrest : i ∉ rest := fun hcontra => hni (List.mem_cons_of_mem j hcontra)
    obtain ⟨v, hv⟩ := publishDueStep_queue_set h gw mkPostId nowIsoOpt tNow st j
    rw [List.foldl_cons, ih _ i hrest, hv,
      List.getD_eq_getElem?_getD, List.getD_eq_getElem?_getD, List.getElem?_set_ne hij]

theorem foldl_step_counts (h : String → String) (gw : Nat → GwResult)
    (mkPostId : Nat → String) (nowIsoOpt : Option String) (tNow : String)
    (batch : List Nat) :
    ∀ st : PubState,
      ((batch.foldl (publishDueStep h gw mkPostId nowIsoOpt tNow) st).published +
        (batch.foldl (publishDueStep h gw mkPostId nowIsoOpt tNow) st).failed +
        (batch.foldl (publishDueStep h gw mkPostId nowIsoOpt tNow) st).skipped =
        st.published + st.failed + st.skipped + batch.length) ∧
      (batch.foldl (publishDueStep h gw mkPostId nowIsoOpt tNow) st).items.length =
        st.items.length + batch.length ∧
      (batch.foldl (publishDueStep h gw mkPostId nowIsoOpt tNow) st).gwCalls ≤
        st.gwCalls + batch.length := by
  induction batch with
  | nil => intro st; exact ⟨rfl, rfl, Nat.le_refl _⟩
  | cons j rest ih =>
    intro st
    obtain ⟨hsum, hitems, hgw⟩ := publishDueStep_counts h gw mkPostId nowIsoOpt tNow st j
    obtain ⟨hsum2, hitems2, hgw2⟩ := ih (publishDueStep h gw mkPostId nowIsoOpt tNow st j)
    rw [List.foldl_cons]
    refine ⟨by rw [hsum2, hsum]; simp; omega, by rw [hitems2, hitems]; simp; omega, ?_⟩
    calc (rest.foldl (publishDueStep h gw mkPostId nowIsoOpt tNow)
          (publishDueStep h gw mkPostId nowIsoOpt tNow st j)).gwCalls
        ≤ (publishDueStep h gw mkPostId nowIsoOpt tNow st j).gwCalls + rest.length := hgw2
      _ ≤ st.gwCalls + 1 + rest.length := by omega
      _ = st.gwCalls + (j :: rest).length := by simp; omega

/-- C5: `publishDue` processes exactly the due set — items whose
`scheduled_at` parses to an instant at most `now` and whose status is
`queued`, or `publish_failed` with fewer than `maxRetries` retries — stable
sorted ascending by `scheduled_at` with ties broken by insertion order and
truncated to the first `limit`; items outside that prefix are not mutated,
and the batch accounts for every processed item (one counter and one result
entry each, at most one gateway call each). -/
theorem c5_publish_due_selection (h : String → String) (parseMs : String → Option Int)
    (gw : Nat → GwResult) (mkPostId : Nat → String) (nowIsoOpt : Option String) (tNow : String)
    (maxRetries : Nat) (nowMs : Int) (limit : Nat)
    (queue : List QueueItem) (posts : List PostRecord) :
    (∀ i, i ∈ dueIndexes maxRetries parseMs nowMs queue ↔
      i < queue.length ∧
      (∃ t, parseMs (queue.getD i emptyQueueItem).scheduled_at = some t ∧ t ≤ nowMs) ∧
      ((queue.getD i emptyQueueItem).status = "queued" ∨
        ((queue.getD i emptyQueueItem).status = "publish_failed" ∧
          (queue.getD i emptyQueueItem).retries < maxRetries))) ∧
    (sortedDueIndexes maxRetries parseMs nowMs queue).Perm
      (dueIndexes maxRetries parseMs nowMs queue) ∧
    ((sortedDueIndexes maxRetries parseMs nowMs queue).take limit).Pairwise
      (fun a b => schedKey queue a < schedKey queue b ∨
        (schedKey queue a = schedKey queue b ∧ a < b)) ∧
    (publishDue h parseMs gw mkPostId nowIsoOpt tNow maxRetries nowMs limit queue posts).queue.length =
      queue.length ∧
    (∀ i, i ∉ (sortedDueIndexes maxRetries parseMs nowMs queue).take limit →
      (publishDue h parseMs gw mkPostId nowIsoOpt tNow maxRetries nowMs limit queue posts).queue.getD
        i emptyQueueItem = queue.getD i emptyQueueItem) ∧
    ((publishDue h parseMs gw mkPostId nowIsoOpt tNow maxRetries nowMs limit queue posts).published +
      (publishDue h parseMs gw mkPostId nowIsoOpt tNow maxRetries nowMs limit queue posts).failed +
      (publishDue h parseMs gw mkPostId nowIsoOpt tNow maxRetries nowMs limit queue posts).skipped =
      ((sortedDueIndexes maxRetries parseMs nowMs queue).take limit).length ∧
    (publishDue h parseMs gw mkPostId nowIsoOpt tNow maxRetries nowMs limit queue posts).items.length =
      ((sortedDueIndexes maxRetries parseMs nowMs queue).take limit).length ∧
    (publishDue h parseMs gw mkPostId nowIsoOpt tNow maxRetries nowMs limit queue posts).gwCalls ≤
      ((sortedDueIndexes maxRetries parseMs nowMs queue).take limit).length) := by
  refine ⟨mem_dueIndexes maxRetries parseMs nowMs queue,
    List.mergeSort_perm _ _,
    List.Pairwise.sublist (List.take_sublist _ _)
      (sortedDueIndexes_pairwise maxRetries parseMs nowMs queue), ?_, ?_, ?_, ?_, ?_⟩
  · exact foldl_step_queue_length h gw mkPostId nowIsoOpt tNow _ _
  · intro i hni
    exact foldl_step_frame h gw mkPostId nowIsoOpt tNow _ _ i hni
  · have hc := (foldl_step_counts h gw mkPostId nowIsoOpt tNow
      ((sortedDueIndexes maxRetries parseMs nowMs queue).take limit)
      { queue := queue, posts := posts,
        byContentHash := posts.map (fun post => post.content_hash) }).1
    simpa [publishDue] using hc
  · have hc := (foldl_step_counts h gw mkPostId nowIsoOpt tNow
      ((sortedDueIndexes maxRetries parseMs nowMs queue).take limit)
      { queue := queue, posts := posts,
        byContentHash := posts.map (fun post => post.content_hash) }).2.1
    simpa [publishDue] using hc
  · have hc := (foldl_step_counts h gw mkPostId nowIsoOpt tNow
      ((sortedDueIndexes maxRetries parseMs nowMs queue).take limit)
      { queue := queue, posts := posts,
        byContentHash := posts.map (fun post => post.content_hash) }).2.2
    simpa [publishDue] using hc

/-- C5 (witness): on a queue whose item 0 is future-scheduled and item 1 is
due, the due set is exactly `[1]`, the untouched item 0 survives `publishDue`
unchanged, and the batch of one item is fully accounted for. -/
theorem c5_publish_due_selection_witness :
    (1 ∈ dueIndexes 5 c5Parse 1500 c5Queue ∧ 0 ∉ dueIndexes 5 c5Parse 1500 c5Queue) ∧
    (publishDue (fun s => s) c5Parse (fun _ => .ok "t1" "p1") (fun _ => "pid") none "t"
      5 1500 5 c5Queue []).queue.getD 0 emptyQueueItem = c5Queue.getD 0 emptyQueueItem ∧
    (publishDue (fun s => s) c5Parse (fun _ => .ok "t1" "p1") (fun _ => "pid") none "t"
      5 1500 5 c5Queue []).published +
    (publishDue (fun s => s) c5Parse (fun _ => .ok "t1" "p1") (fun _ => "pid") none "t"
      5 1500 5 c5Queue []).failed +
    (publishDue (fun s => s) c5Parse (fun _ => .ok "t1" "p1") (fun _ => "pid") none "t"
      5 1500 5 c5Queue []).skipped = 1 := by
  have base := c5_publish_due_selection (fun s => s) c5Parse (fun _ => .ok "t1" "p1")
    (fun _ => "pid") none "t" 5 1500 5 c5Queue []
  have hdix : dueIndexes 5 c5Parse 1500 c5Queue = [1] := by decide
  have hsort : sortedDueIndexes 5 c5Parse 1500 c5Queue = [1] := by
    rw [sortedDueIndexes, hdix, List.mergeSort_singleton]
  refine ⟨⟨by decide, by decide⟩, ?_, ?_⟩
  · exact base.2.2.2.2.1 0 (by rw [hsort]; decide)
  · have hc := base.2.2.2.2.2.1
    rw [hsort] at hc
    simpa using hc

/-- The duplicate branch of the loop body, as an equation: the item is marked
`skipped_duplicate` and nothing else — no gateway call, no post record. -/
theorem publishDueStep_skip_eq (h : String → String) (gw : Nat → GwResult)
    (mkPostId : Nat → String) (nowIsoOpt : Option String) (tNow : String)
    (st : PubState) (j : Nat) (hash : String)
    (hhash : (if (st.queue.getD j emptyQueueItem).content_hash ≠ "" then
      (st.queue.getD j emptyQueueItem).content_hash
      else contentHash h (st.queue.getD j emptyQueueItem).content) = hash)
    (hmem : hash ∈ st.byContentHash) :
    publishDueStep h gw mkPostId nowIsoOpt tNow st j =
      { st with
        skipped := st.skipped + 1,
        queue := st.queue.set j
          { st.queue.getD j emptyQueueItem with
            status := "skipped_duplicate", updated_at := tNow },
        items := st.items ++
          [{ schedule_id := (st.queue.getD j emptyQueueItem).id,
             status := "skipped_duplicate" }] } := by
  simp only [publishDueStep]
  rw [hhash, if_pos hmem]

/-- The successful-publish branch of the loop body, as an equation. -/
theorem publishDueStep_publish_eq (h : String → String) (gw : Nat → GwResult)
    (mkPostId : Nat → String) (nowIsoOpt : Option String) (tNow : String)
    (st : PubState) (j : Nat) (hash tid pat : String)
    (hhash : (if (st.queue.getD j emptyQueueItem).content_hash ≠ "" then
      (st.queue.getD j emptyQueueItem).content_hash
      else contentHash h (st.queue.getD j emptyQueueItem).content) = hash)
    (hmem : hash ∉ st.byContentHash)
    (hgw : gw st.gwCalls = .ok tid pat) :
    publishDueStep h gw mkPostId nowIsoOpt tNow st j =
      { st with
        gwCalls := st.gwCalls + 1,
        byContentHash := hash :: st.byContentHash,
        posts := st.posts ++
          [{ id := mkPostId st.gwCalls, tweet_id := tid,
             content := (st.queue.getD j emptyQueueItem).content, content_hash := hash,
             source_schedule_id := (st.queue.getD j emptyQueueItem).id,
             posted_at := nowIsoOpt.getD pat }],
        queue := st.queue.set j
          { st.queue.getD j emptyQueueItem with
            content_hash := hash, status := "published", tweet_id := some tid,
            posted_at := some (nowIsoOpt.getD pat), last_error := none, updated_at := tNow },
        published := st.published + 1,
        items := st.items ++
          [{ schedule_id := (st.queue.getD j emptyQueueItem).id,
             status := "published", tweet_id := some tid }] } := by
  simp only [publishDueStep, hgw]
  rw [hhash, if_neg hmem]

/-- The failed-publish branch of the loop body, as an equation. -/
theorem publishDueStep_err_eq (h : String → String) (gw : Nat → GwResult)
    (mkPostId : Nat → String) (nowIsoOpt : Option String) (tNow : String)
    (st : PubState) (j : Nat) (hash msg : String)
    (hhash : (if (st.queue.getD j emptyQueueItem).content_hash ≠ "" then
      (st.queue.getD j emptyQueueItem).content_hash
      else contentHash h (st.queue.getD j emptyQueueItem).content) = hash)
    (hmem : hash ∉ st.byContentHash)
    (hgw : gw st.gwCalls = .err msg) :
    publishDueStep h gw mkPostId nowIsoOpt tNow st j =
      { st with
        gwCalls := st.gwCalls + 1,
        failed := st.failed + 1,
        queue := st.queue.set j
          { st.queue.getD j emptyQueueItem with
            content_hash := hash, status := "publish_failed",
            retries := (st.queue.getD j emptyQueueItem).retries + 1,
            last_error := some msg, updated_at := tNow },
        items := st.items ++
          [{ schedule_id := (st.queue.getD j emptyQueueItem).id,
             status := "publish_failed", error := some msg }] } := by
  simp only [publishDueStep, hgw]
  rw [hhash, if_neg hmem]

/-- One loop step preserves the dedup invariant: post hashes stay nodup and
every post hash stays registered in the duplicate index. -/
theorem publishDueStep_inv (h : String → String) (gw : Nat → GwResult)
    (mkPostId : Nat → String) (nowIsoOpt : Option String) (tNow : String)
    (st : PubState) (j : Nat)
    (hinv : (st.posts.map (fun p => p.content_hash)).Nodup ∧
      ∀ p ∈ st.posts, p.content_hash ∈ st.byContentHash) :
    ((publishDueStep h gw mkPostId nowIsoOpt tNow st j).posts.map
      (fun p => p.content_hash)).Nodup ∧
    ∀ p ∈ (publishDueStep h gw mkPostId nowIsoOpt tNow st j).posts,
      p.content_hash ∈ (publishDueStep h gw mkPostId nowIsoOpt tNow st j).byContentHash := by
  by_cases hmem : (if (st.queue.getD j emptyQueueItem).content_hash ≠ "" then
      (st.queue.getD j emptyQueueItem).content_hash
      else contentHash h (st.queue.getD j emptyQueueItem).content) ∈ st.byContentHash
  · rw [publishDueStep_skip_eq h gw mkPostId nowIsoOpt tNow st j _ rfl hmem]
    exact hinv
  · cases hgw : gw st.gwCalls with
    | ok tid pat =>
      rw [publishDueStep_publish_eq h gw mkPostId nowIsoOpt tNow st j _ tid pat rfl hmem hgw]
      constructor
      · rw [List.map_append, List.nodup_append]
        refine ⟨hinv.1, by simp, ?_⟩
        intro x hxm hxmem2
        simp only [List.map_cons, List.map_nil, List.mem_singleton] at hxmem2
        obtain ⟨p, hp, hpe⟩ := List.mem_map.mp hxm
        apply hmem
        rw [← hxmem2, ← hpe]
        exact hinv.2 p hp
      · intro p hp
        rcases List.mem_append.mp hp with hold | hnew
        · exact List.mem_cons_of_mem _ (hinv.2 p hold)
        · rw [List.mem_singleton.mp hnew]
          exact List.mem_cons_self _ _
    | err msg =>
      rw [publishDueStep_err_eq h gw mkPostId nowIsoOpt tNow st j _ msg rfl hmem hgw]
      exact hinv

/-- The whole batch preserves the dedup invariant. -/
theorem foldl_step_inv (h : String → String) (gw : Nat → GwResult)
    (mkPostId : Nat → String) (nowIsoOpt : Option String) (tNow : String)
    (batch : List Nat) :
    ∀ st : PubState,
      ((st.posts.map (fun p => p.content_hash)).Nodup ∧
        ∀ p ∈ st.posts, p.content_hash ∈ st.byContentHash) →
      (((batch.foldl (publishDueStep h gw mkPostId nowIsoOpt tNow) st).posts.map
        (fun p => p.content_hash)).Nodup ∧
      ∀ p ∈ (batch.foldl (publishDueStep h gw mkPostId nowIsoOpt tNow) st).posts,
        p.content_hash ∈
          (batch.foldl (publishDueStep h gw mkPostId nowIsoOpt tNow) st).byContentHash) := by
  induction batch with
  | nil => intro st hinv; exact hinv
  | cons j rest ih =>
    intro st hinv
    rw [List.foldl_cons]
    exact ih _ (publishDueStep_inv h gw mkPostId nowIsoOpt tNow st j hinv)

/-- A permutation of a two-element nodup list is one of its two arrangements. -/
theorem perm_pair_cases {x y : Nat} {S : List Nat} (hperm : S.Perm [x, y]) (hxy : x ≠ y) :
    S = [x, y] ∨ S = [y, x] := by
  rcases S with _ | ⟨u, _ | ⟨v, _ | ⟨w, t⟩⟩⟩
  · simpa using hperm.length_eq
  · simpa using hperm.length_eq
  · have hu : u = x ∨ u = y := by
      have := hperm.subset (List.mem_cons_self u [v])
      simpa using this
    have hv : v = x ∨ v = y := by
      have := hperm.subset (List.mem_cons_of_mem u (List.mem_cons_self v []))
      simpa using this
    have hnd : ([u, v] : List Nat).Nodup := hperm.nodup_iff.mpr (by simp [hxy])
    have huv : u ≠ v := by simpa using hnd
    rcases hu with rfl | rfl <;> rcases hv with rfl | rfl
    · exact absurd rfl huv
    · exact Or.inl rfl
    · exact Or.inr rfl
    · exact absurd rfl huv
  · simpa using hperm.length_eq

/-- C1: no two PostRecords ever share a `content_hash`: `publishDue` preserves
hash-uniqueness of the posts collection; a due item whose hash is already in
the duplicate index (seeded from the existing posts and extended in-batch) is
marked `skipped_duplicate` without any gateway call or post record; and for
two due queued items with identical content (with gateway success), exactly
one ends `published`, the other `skipped_duplicate`, and exactly one
PostRecord is appended. -/
theorem c1_content_hash_unique (h : String → String) (parseMs : String → Option Int)
    (gw : Nat → GwResult) (mkPostId : Nat → String) (nowIsoOpt : Option String) (tNow : String)
    (maxRetries : Nat) (nowMs : Int) (limit : Nat) :
    (∀ (queue : List QueueItem) (posts : List PostRecord),
      (posts.map (fun p => p.content_hash)).Nodup →
      ((publishDue h parseMs gw mkPostId nowIsoOpt tNow maxRetries nowMs limit queue posts).posts.map
        (fun p => p.content_hash)).Nodup) ∧
    (∀ (st : PubState) (j : Nat) (hash : String),
      (if (st.queue.getD j emptyQueueItem).content_hash ≠ "" then
        (st.queue.getD j emptyQueueItem).content_hash
        else contentHash h (st.queue.getD j emptyQueueItem).content) = hash →
      hash ∈ st.byContentHash →
      (publishDueStep h gw mkPostId nowIsoOpt tNow st j).gwCalls = st.gwCalls ∧
      (publishDueStep h gw mkPostId nowIsoOpt tNow st j).posts = st.posts ∧
      (publishDueStep h gw mkPostId nowIsoOpt tNow st j).skipped = st.skipped + 1 ∧
      (publishDueStep h gw mkPostId nowIsoOpt tNow st j).queue =
        st.queue.set j { st.queue.getD j emptyQueueItem with
          status := "skipped_duplicate", updated_at := tNow }) ∧
    (∀ (a b : QueueItem) (posts : List PostRecord) (ta tb : Int) (tid pat : String),
      a.content = b.content →
      a.content_hash = contentHash h a.content →
      b.content_hash = contentHash h b.content →
      a.status = "queued" → b.status = "queued" →
      parseMs a.scheduled_at = some ta → ta ≤ nowMs →
      parseMs b.scheduled_at = some tb → tb ≤ nowMs →
      2 ≤ limit →
      gw 0 = .ok tid pat →
      contentHash h a.content ∉ posts.map (fun p => p.content_hash) →
      (publishDue h parseMs gw mkPostId nowIsoOpt tNow maxRetries nowMs limit [a, b] posts).published = 1 ∧
      (publishDue h parseMs gw mkPostId nowIsoOpt tNow maxRetries nowMs limit [a, b] posts).skipped = 1 ∧
      (publishDue h parseMs gw mkPostId nowIsoOpt tNow maxRetries nowMs limit [a, b] posts).failed = 0 ∧
      (publishDue h parseMs gw mkPostId nowIsoOpt tNow maxRetries nowMs limit [a, b] posts).posts.length =
        posts.length + 1 ∧
      ((((publishDue h parseMs gw mkPostId nowIsoOpt tNow maxRetries nowMs limit [a, b] posts).queue.getD
          0 emptyQueueItem).status = "published" ∧
        ((publishDue h parseMs gw mkPostId nowIsoOpt tNow maxRetries nowMs limit [a, b] posts).queue.getD
          1 emptyQueueItem).status = "skipped_duplicate") ∨
       (((publishDue h parseMs gw mkPostId nowIsoOpt tNow maxRetries nowMs limit [a, b] posts).queue.getD
          0 emptyQueueItem).status = "skipped_duplicate" ∧
        ((publishDue h parseMs gw mkPostId nowIsoOpt tNow maxRetries nowMs limit [a, b] posts).queue.getD
          1 emptyQueueItem).status = "published"))) := by
  refine ⟨?_, ?_, ?_⟩
  · intro queue posts hnd
    have hi := foldl_step_inv h gw mkPostId nowIsoOpt tNow
      ((sortedDueIndexes maxRetries parseMs nowMs queue).take limit)
      { queue := queue, posts := posts,
        byContentHash := posts.map (fun post => post.content_hash) }
      ⟨hnd, fun p hp => List.mem_map_of_mem _ hp⟩
    simpa [publishDue] using hi.1
  · intro st j hash hhash hmem
    rw [publishDueStep_skip_eq h gw mkPostId nowIsoOpt tNow st j hash hhash hmem]
    exact ⟨rfl, rfl, rfl, rfl⟩
  · intro a b posts ta tb tid pat hcontent hahash hbhash hsa hsb hpa hta hpb htb hlim hgw hfresh
    have hda : dueRetryable maxRetries parseMs nowMs a = true := by
      simp only [dueRetryable, hpa, hsa]
      simp [hta]
    have hdb : dueRetryable maxRetries parseMs nowMs b = true := by
      simp only [dueRetryable, hpb, hsb]
      simp [htb]
    have hdix : dueIndexes maxRetries parseMs nowMs [a, b] = [0, 1] := by
      rw [dueIndexes, show ([a, b] : List QueueItem).length = 2 from rfl,
        show List.range 2 = [0, 1] from rfl]
      simp only [List.filter]
      rw [show ([a, b] : List QueueItem).getD 0 emptyQueueItem = a from rfl,
        show ([a, b] : List QueueItem).getD 1 emptyQueueItem = b from rfl, hda, hdb]
    have hperm := List.mergeSort_perm (dueIndexes maxRetries parseMs nowMs [a, b])
      (fun i j => decide (schedKey [a, b] i ≤ schedKey [a, b] j))
    rw [hdix] at hperm
    have hcases := perm_pair_cases hperm (by decide)
    have hhasha : (if a.content_hash ≠ "" then a.content_hash
        else contentHash h a.content) = contentHash h a.content := by
      rw [hahash, ite_self]
    have hhashb : (if b.content_hash ≠ "" then b.content_hash
        else contentHash h b.content) = contentHash h a.content := by
      rw [hbhash, ite_self, ← hcontent]
    rcases hcases with hS | hS
    · have hbatch : (sortedDueIndexes maxRetries parseMs nowMs [a, b]).take limit = [0, 1] := by
        rw [sortedDueIndexes, hdix, hS]
        exact List.take_of_length_le (by simpa using hlim)
      simp only [publishDue, hbatch, List.foldl_cons, List.foldl_nil]
      rw [publishDueStep_publish_eq h gw mkPostId nowIsoOpt tNow _ 0
        (contentHash h a.content) tid pat ?_ ?_ ?_]
      · rw [publishDueStep_skip_eq h gw mkPostId nowIsoOpt tNow _ 1
          (contentHash h a.content) ?_ ?_]
        · exact ⟨rfl, rfl, rfl, by simp, Or.inl ⟨rfl, rfl⟩⟩
        · exact hhashb
        · exact List.mem_cons_self _ _
      · exact hhasha
      · exact hfresh
      · exact hgw
    · have hbatch : (sortedDueIndexes maxRetries parseMs nowMs [a, b]).take limit = [1, 0] := by
        rw [sortedDueIndexes, hdix, hS]
        exact List.take_of_length_le (by simpa using hlim)
      simp only [publishDue, hbatch, List.foldl_cons, List.foldl_nil]
      rw [publishDueStep_publish_eq h gw mkPostId nowIsoOpt tNow _ 1
        (contentHash h a.content) tid pat ?_ ?_ ?_]
      · rw [publishDueStep_skip_eq h gw mkPostId nowIsoOpt tNow _ 0
          (contentHash h a.content) ?_ ?_]
        · exact ⟨rfl, rfl, rfl, by simp, Or.inr ⟨rfl, rfl⟩⟩
        · exact hhasha
        · exact List.mem_cons_self _ _
      · exact hhashb
      · exact hfresh
      · exact hgw

/-- Witness for C1: two queued items with identical content "x", an empty posts
collection, and an always-succeeding gateway yield one publish, one duplicate
skip, no failure, and a single appended post record. -/
theorem c1_content_hash_unique_witness :
    (publishDue (fun s => s) (fun _ => some (5 : Int)) (fun _ => GwResult.ok "tid" "pat")
      (fun _ => "post0") (some "NOW") "T" 5 5 2 [c1QueueA, c1QueueB] []).published = 1 ∧
    (publishDue (fun s => s) (fun _ => some (5 : Int)) (fun _ => GwResult.ok "tid" "pat")
      (fun _ => "post0") (some "NOW") "T" 5 5 2 [c1QueueA, c1QueueB] []).skipped = 1 ∧
    (publishDue (fun s => s) (fun _ => some (5 : Int)) (fun _ => GwResult.ok "tid" "pat")
      (fun _ => "post0") (some "NOW") "T" 5 5 2 [c1QueueA, c1QueueB] []).failed = 0 ∧
    (publishDue (fun s => s) (fun _ => some (5 : Int)) (fun _ => GwResult.ok "tid" "pat")
      (fun _ => "post0") (some "NOW") "T" 5 5 2 [c1QueueA, c1QueueB] []).posts.length = 1 ∧
    ((((publishDue (fun s => s) (fun _ => some (5 : Int)) (fun _ => GwResult.ok "tid" "pat")
        (fun _ => "post0") (some "NOW") "T" 5 5 2 [c1QueueA, c1QueueB] []).queue.getD
        0 emptyQueueItem).status = "published" ∧
      ((publishDue (fun s => s) (fun _ => some (5 : Int)) (fun _ => GwResult.ok "tid" "pat")
        (fun _ => "post0") (some "NOW") "T" 5 5 2 [c1QueueA, c1QueueB] []).queue.getD
        1 emptyQueueItem).status = "skipped_duplicate") ∨
     (((publishDue (fun s => s) (fun _ => some (5 : Int)) (fun _ => GwResult.ok "tid" "pat")
        (fun _ => "post0") (some "NOW") "T" 5 5 2 [c1QueueA, c1QueueB] []).queue.getD
        0 emptyQueueItem).status = "skipped_duplicate" ∧
      ((publishDue (fun s => s) (fun _ => some (5 : Int)) (fun _ => GwResult.ok "tid" "pat")
        (fun _ => "post0") (some "NOW") "T" 5 5 2 [c1QueueA, c1QueueB] []).queue.getD
        1 emptyQueueItem).status = "published")) :=
  (c1_content_hash_unique (fun s => s) (fun _ => some (5 : Int))
    (fun _ => GwResult.ok "tid" "pat") (fun _ => "post0") (some "NOW") "T" 5 5 2).2.2
    c1QueueA c1QueueB [] 5 5 "tid" "pat" rfl (by decide) (by decide) rfl rfl rfl
    (by decide) rfl (by decide) (by decide) rfl (by simp)

end XAgent
